import Mathlib

/-!
Verification of the window/view/render-graph lifecycle manager and frame loop
of the rocky application shell (`src/src/rocky_vsg/Application.cpp`).

The embedding models vsg reference-counted objects by numeric identities
drawn from a single fresh-id counter (distinct allocations always yield
distinct ids, matching pointer identity).  External collaborators (the GPU
device, the compile manager, the terrain engine, logging) are opaque: calls
into them have no effect on the modelled state.
-/

namespace Rocky

/-! ## Association lists

`std::map` keyed by object pointers is modelled by an association list keyed
by numeric ids.  Because ids are allocated in increasing order and entries
are appended at creation time, list order agrees with `std::map` key order.
-/

/-- Lookup of the first entry with the given key. -/
def lookupA {α : Type} : List (Nat × α) → Nat → Option α
  | [], _ => none
  | (k, v) :: rest, key => if k = key then some v else lookupA rest key

/-- Map-style insert-or-assign: replaces the first entry with the key,
or appends a new entry. -/
def setA {α : Type} : List (Nat × α) → Nat → α → List (Nat × α)
  | [], k, v => [(k, v)]
  | (k', v') :: rest, k, v =>
    if k' = k then (k, v) :: rest else (k', v') :: setA rest k v

/-- Updates the value of the first entry with the key, if present. -/
def updateA {α : Type} : List (Nat × α) → Nat → (α → α) → List (Nat × α)
  | [], _, _ => []
  | (k', v') :: rest, k, f =>
    if k' = k then (k, f v') :: rest else (k', v') :: updateA rest k f

/-- Removes the first entry with the given key (map erase). -/
def eraseA {α : Type} : List (Nat × α) → Nat → List (Nat × α)
  | [], _ => []
  | (k', v') :: rest, k => if k' = k then rest else (k', v') :: eraseA rest k

/-! ## Data model -/

/-- A render graph attached as a child of a command graph: its identity and
the view it bears (its first child cast to a view), if any.  Mirrors the
`vsg::RenderGraph` objects created in `Application::addView` and
`Application::addViewAfterViewerIsRealized`. -/
structure RenderGraphObj where
  id : Nat
  view : Option Nat
deriving DecidableEq, Repr

/-- A per-window command graph: identity plus the ordered list of render
graph children (`vsg::CommandGraph`). -/
structure CommandGraphObj where
  id : Nat
  children : List RenderGraphObj
deriving DecidableEq, Repr

/-- An entry of the viewer event-handler list.  `manip none` is a null
reference pushed by the manipulator rebuild loop for a view that owns no
manipulator; `manip (some m)` is a MapManipulator instance. -/
inductive Handler where
  | close
  | manip (m : Option Nat)
  | other (k : Nat)
deriving DecidableEq, Repr

/-- A caller-supplied `vsg::View` argument: its identity and whether its
camera member is non-null. -/
structure ViewArg where
  id : Nat
  hasCamera : Bool
deriving DecidableEq, Repr

/-- A structural mutation deferred past realization via
`runtime().runDuringUpdate`, to be executed at the frame-loop safe point. -/
inductive PendingOp where
  | addWindowOp (futureId : Nat)
  | addViewOp (window : Nat) (view : ViewArg) (hasOnCreate : Bool) (futureId : Nat)
  | removeViewOp (view : Nat)
deriving DecidableEq, Repr

/-- The application state: the registries and flags of `Application`
together with the relevant viewer state. -/
structure App where
  /-- fresh-id counter modelling object allocation -/
  nextId : Nat
  /-- `_commandGraphByWindow` : window id to its command graph -/
  commandGraphByWindow : List (Nat × CommandGraphObj)
  /-- `displayConfiguration.windows` : window id to its ordered attached views -/
  dispWindows : List (Nat × List Nat)
  /-- `_viewData` : view id to its `parentRenderGraph` id -/
  viewData : List (Nat × Nat)
  /-- the MapManipulator stored on each view via `setObject(MapManipulator::tag, ...)` -/
  viewManip : List (Nat × Nat)
  /-- views whose vsg child list is non-empty (guard for attaching the scene root) -/
  viewChildren : List Nat
  /-- the viewer event-handler list (`viewer->getEventHandlers()`) -/
  handlers : List Handler
  /-- the viewer window list (`viewer->windows()`) -/
  viewerWindows : List Nat
  /-- `_viewerRealized` -/
  realized : Bool
  /-- `_viewerDirty` -/
  dirty : Bool
  /-- `mapNode->terrainSettings().supportMultiThreadedRecord` -/
  multiThreadedRecord : Bool
  /-- operations queued via `runtime().runDuringUpdate` -/
  pending : List PendingOp
  /-- future id to its resolved value (`none` while unresolved) -/
  futures : List (Nat × Option Nat)
deriving DecidableEq, Repr

/-- The `Application` constructor state: empty registries, no windows, no
handlers, unrealized.  The terrain setting `supportMultiThreadedRecord`
starts disabled (modelled from the spec: the terrain-settings default is
outside the sampled sources, and the spec enables the protection only once
a second window exists). -/
def initApp : App :=
  { nextId := 0, commandGraphByWindow := [], dispWindows := [], viewData := []
    viewManip := [], viewChildren := [], handlers := [], viewerWindows := []
    realized := false, dirty := false, multiThreadedRecord := false
    pending := [], futures := [] }

/-! ## Operations -/

/-- Allocates a fresh, unresolved `util::Future`. -/
def newFuture (s : App) : App × Nat :=
  ({ s with nextId := s.nextId + 1, futures := s.futures ++ [(s.nextId, none)] },
   s.nextId)

/-- Resolves a future with a value (`util::Future::resolve`). -/
def resolveFuture (s : App) (fid : Nat) (v : Nat) : App :=
  { s with futures := setA s.futures fid (some v) }

/-- Lookup of `Application::getCommandGraph`. -/
def getCommandGraph (s : App) (window : Nat) : Option CommandGraphObj :=
  lookupA s.commandGraphByWindow window

/-- Reverse lookup of `Application::getWindow`: the first window whose
display-configuration view list contains the view. -/
def getWindow (s : App) (view : Nat) : Option Nat :=
  (s.dispWindows.find? (fun wv => wv.2.contains view)).map Prod.fst

/-- The effect of `displayConfiguration.windows[window].emplace_back(view)`:
appends the view to the window entry, creating the entry if absent. -/
def appendView (l : List (Nat × List Nat)) (w v : Nat) : List (Nat × List Nat) :=
  match lookupA l w with
  | some _ => updateA l w (fun vs => vs ++ [v])
  | none => l ++ [(w, [v])]

/-- The shared attach mutation of `Application::addView` (pre-realization
branch) and `Application::addViewAfterViewerIsRealized`, run once the window
command graph has been found: create a render graph wrapping the view,
append it to the command graph children, record the parent render graph in
`_viewData`, and record the view under the window in the display
configuration. -/
def attachView (s : App) (window view : Nat) : App :=
  let rgId := s.nextId
  { s with
    nextId := rgId + 1
    commandGraphByWindow :=
      updateA s.commandGraphByWindow window
        (fun c => { c with children := c.children ++ [⟨rgId, some view⟩] })
    viewData := setA s.viewData view rgId
    dispWindows := appendView s.dispWindows window view }

/-- Pushed by `view->addChild(root)` when the view child list is empty. -/
def addRootIfEmpty (s : App) (view : Nat) : App :=
  if view ∈ s.viewChildren then s
  else { s with viewChildren := s.viewChildren ++ [view] }

/-- Model of `Application::addManipulator`: create a manipulator for the
view, store it on the view, remove every MapManipulator from the event
handlers (null entries are not MapManipulators and survive), then re-append
one entry per view, iterating windows in display-configuration order and
each window view list in reverse (last added first). -/
def addManipulator (s : App) (window view : Nat) : App :=
  let manipId := s.nextId
  let vm := setA s.viewManip view manipId
  let kept := s.handlers.filter fun h =>
    match h with
    | .manip (some _) => false
    | _ => true
  let rebuilt :=
    (s.dispWindows.map fun wv =>
      wv.2.reverse.map fun u => Handler.manip (lookupA vm u)).flatten
  let _ := window
  { s with nextId := manipId + 1, viewManip := vm, handlers := kept ++ rebuilt }

/-- The pre-realization branch of `Application::addView` (the argument
checks have already passed).  Returns the new state, the returned future id,
and the creation-callback invocation: `none` when the callback was not
invoked, otherwise the command-graph pointer it received (`none` = null). -/
def addViewPre (s : App) (window : Nat) (view : ViewArg) (hasOnCreate : Bool) :
    App × Nat × Option (Option Nat) :=
  match lookupA s.commandGraphByWindow window with
  | some cg =>
    let s1 := addRootIfEmpty s view.id
    let s2 := attachView s1 window view.id
    let (s3, fid) := newFuture s2
    let s4 := resolveFuture s3 fid view.id
    (s4, fid, if hasOnCreate then some (some cg.id) else none)
  | none =>
    let (s1, fid) := newFuture s
    let s2 := resolveFuture s1 fid view.id
    (s2, fid, if hasOnCreate then some none else none)

/-- Resolution of a possibly-absent future (the default-constructed future
handed to `addViewAfterViewerIsRealized` from `addWindow` is unobservable;
a real future is resolved normally). -/
def resolveFutureOpt (s : App) (fid : Option Nat) (v : Nat) : App :=
  match fid with
  | some f => resolveFuture s f v
  | none => s

/-- Model of `Application::addViewAfterViewerIsRealized`: attach the scene
root if the view has no children, attach the view if the window has a
command graph (also activating the render graph and installing a
manipulator), invoke the callback with the command-graph pointer (null when
absent), and resolve the future. -/
def addViewRealizedCore (s : App) (window : Nat) (view : ViewArg)
    (hasOnCreate : Bool) (futureId : Option Nat) : App × Option (Option Nat) :=
  let s1 := addRootIfEmpty s view.id
  match getCommandGraph s1 window with
  | some cg =>
    let s2 := attachView s1 window view.id
    let s3 := addManipulator s2 window view.id
    let s4 := resolveFutureOpt s3 futureId view.id
    (s4, if hasOnCreate then some (some cg.id) else none)
  | none =>
    let s2 := resolveFutureOpt s1 futureId view.id
    (s2, if hasOnCreate then some none else none)

/-- Model of the public `Application::addView`: soft-asserts reject a null
window, null view, or null camera by returning a default (unresolved)
future; after realization the work is queued for the frame-loop safe point;
before realization it runs inline. -/
def addView (s : App) (window : Option Nat) (view : Option ViewArg)
    (hasOnCreate : Bool) : App × Nat × Option (Option Nat) :=
  match window, view with
  | some w, some v =>
    if v.hasCamera then
      if s.realized then
        let (s1, fid) := newFuture s
        ({ s1 with pending := s1.pending ++ [.addViewOp w v hasOnCreate fid] },
         fid, none)
      else
        addViewPre s w v hasOnCreate
    else
      let (s1, fid) := newFuture s
      (s1, fid, none)
  | _, _ =>
    let (s1, fid) := newFuture s
    (s1, fid, none)

/-- Creation and registration of the window and its command graph in the
`add_window` lambda (`vsg::Window::create`, `vsg::CommandGraph::create`, and
the `_commandGraphByWindow` insert). -/
def registerWindow (s : App) : App :=
  { s with
    nextId := s.nextId + 2
    commandGraphByWindow := s.commandGraphByWindow ++ [(s.nextId, ⟨s.nextId + 1, []⟩)] }

/-- Creation of the default camera and view in the `add_window` lambda; the
view is created over the main scene, so it starts with a non-empty child
list. -/
def createDefaultView (s : App) : App × ViewArg :=
  ({ s with nextId := s.nextId + 1, viewChildren := s.viewChildren ++ [s.nextId] },
   ⟨s.nextId, true⟩)

/-- The view-attach step of the `add_window` lambda: the realized path goes
through `addViewAfterViewerIsRealized` with a throwaway future, the
unrealized path through the public `addView`. -/
def addWindowAttach (s : App) : App :=
  if s.realized then
    (addViewRealizedCore (createDefaultView (registerWindow s)).1 s.nextId
      (createDefaultView (registerWindow s)).2 false none).1
  else
    (addView (createDefaultView (registerWindow s)).1 (some s.nextId)
      (some (createDefaultView (registerWindow s)).2) false).1

/-- The unconditional `supportMultiThreadedRecord = true` assignment. -/
def enableMTR (s : App) : App := { s with multiThreadedRecord := true }

/-- `viewer->addWindow(window)`. -/
def addViewerWindow (s : App) (w : Nat) : App :=
  { s with viewerWindows := s.viewerWindows ++ [w] }

/-- The closing `if (_viewerRealized) _viewerDirty = true` of the
`add_window` lambda. -/
def markDirtyIfRealized (s : App) : App :=
  if s.realized then { s with dirty := true } else s

/-- Model of the `add_window` lambda body in `Application::addWindow`:
create the window and its command graph, register them, create the default
camera and view over the main scene, attach the view (deferred-style if
already realized), unconditionally enable multi-threaded record protection,
add the window to the viewer, install a manipulator, resolve the future
with the window, and mark the viewer dirty when already realized. -/
def addWindowCore (s : App) (futureId : Nat) : App :=
  markDirtyIfRealized
    (resolveFuture
      (addManipulator (addViewerWindow (enableMTR (addWindowAttach s)) s.nextId)
        s.nextId (registerWindow s).nextId)
      futureId s.nextId)

/-- Model of the public `Application::addWindow`: soft-asserts null traits,
creates the result future, then queues the creation after realization or
runs it inline before. -/
def addWindow (s : App) (traitsOk : Bool) : App × Nat :=
  if traitsOk then
    let (s1, fid) := newFuture s
    if s1.realized then
      ({ s1 with pending := s1.pending ++ [.addWindowOp fid] }, fid)
    else
      (addWindowCore s1 fid, fid)
  else
    newFuture s

/-- The detach mutation performed by the `remove` lambda in
`Application::removeView` once every lookup has succeeded: remove the parent
render graph from the command-graph children, erase the `_viewData` entry,
and erase the view from the display configuration. -/
def detachView (s : App) (window view rgId : Nat) : App :=
  { s with
    commandGraphByWindow :=
      updateA s.commandGraphByWindow window
        (fun c => { c with children := c.children.filter (fun r => r.id ≠ rgId) })
    viewData := eraseA s.viewData view
    dispWindows := updateA s.dispWindows window (fun vs => vs.filter (fun u => u ≠ view)) }

/-- Model of the `remove` lambda body in `Application::removeView`: resolve
the window through the display configuration, soft-asserting at each missing
link; then detach the render graph. -/
def removeViewCore (s : App) (view : Nat) : App :=
  match getWindow s view with
  | none => s
  | some window =>
    match getCommandGraph s window with
    | none => s
    | some _ =>
      match lookupA s.viewData view with
      | none => s
      | some rgId => detachView s window view rgId

/-- Model of the public `Application::removeView`: soft-asserts a null view;
after realization the removal is queued, before it runs inline. -/
def removeView (s : App) (view : Option Nat) : App :=
  match view with
  | none => s
  | some v =>
    if s.realized then { s with pending := s.pending ++ [.removeViewOp v] }
    else removeViewCore s v

/-- Executes one deferred operation at the frame-loop safe point. -/
def runPendingOp (s : App) (op : PendingOp) : App :=
  match op with
  | .addWindowOp fid => addWindowCore s fid
  | .addViewOp w v onc fid => (addViewRealizedCore s w v onc (some fid)).1
  | .removeViewOp v => removeViewCore s v

/-- Executes a list of deferred operations in order. -/
def runPending : App → List PendingOp → App
  | s, [] => s
  | s, op :: rest => runPending (runPendingOp s op) rest

/-- Modelled from the spec: `runtime().runDuringUpdate` (whose source is not
under src/) queues each operation to run once, in enqueue order, at the
single safe point of the frame loop (the viewer update pass, before the
dirty check and before recording). -/
def drain (s : App) : App :=
  runPending { s with pending := [] } s.pending

/-- Model of `Application::setupViewer`: initialize the rendering systems
(external), install a close handler, bind the command graphs into the
record/submit/present task (external), and compile (external). -/
def setupViewer (s : App) : App :=
  { s with handlers := s.handlers ++ [Handler.close] }

/-- Model of `Application::recreateViewer`: capture the installed handlers,
make a fresh viewer, re-add every display-configuration window, reinstall
the captured handlers, and run the one-time setup again. -/
def recreateViewer (s : App) : App :=
  let captured := s.handlers
  let s1 := { s with handlers := [], viewerWindows := s.dispWindows.map Prod.fst }
  setupViewer { s1 with handlers := captured }

/-- Model of `Application::realize`: on the first call, create a default
window if none exists, run the one-time viewer setup, and set the
realization flag. -/
def realize (s : App) : App :=
  if s.realized then s
  else
    let s1 := if s.viewerWindows.isEmpty then (addWindow s true).1 else s
    let s2 := setupViewer s1
    { s2 with realized := true }

/-- Observable effects of one `Application::frame` call. -/
structure FrameResult where
  app : App
  cont : Bool
  realizeRan : Bool
  rebuilds : Nat
  recorded : Bool
  presented : Bool
deriving DecidableEq, Repr

/-- Model of `Application::frame`.  `advanceOk` is the verdict of
`viewer->advanceToNextFrame()` and `active` the verdict of
`viewer->active()` (both external).  The scene, ECS, user-update, and
event-handling passes are external; the deferred queue is drained at the
viewer update pass; a set dirty flag is consumed by exactly one viewer
rebuild that ends the frame before recording and presentation. -/
def frame (s : App) (advanceOk active : Bool) : FrameResult :=
  let realizeRan := !s.realized
  let s1 := if s.realized then s else realize s
  if advanceOk then
    let s2 := drain s1
    if s2.dirty then
      let s3 := recreateViewer { s2 with dirty := false }
      { app := s3, cont := true, realizeRan, rebuilds := 1
        recorded := false, presented := false }
    else
      { app := s2, cont := active, realizeRan, rebuilds := 0
        recorded := true, presented := true }
  else
    { app := s1, cont := false, realizeRan, rebuilds := 0
      recorded := false, presented := false }

/-- Model of `Application::run`: loop `frame()` until it signals stop, then
return exit code 0.  `fuel` bounds the number of iterations observed;
`oracle` supplies the external advance/active verdicts per frame index.
Returns `none` when the loop has not terminated within the fuel. -/
def runAux : Nat → (Nat → Bool × Bool) → Nat → App → Option (Int × App)
  | 0, _, _, _ => none
  | fuel + 1, oracle, k, s =>
    let r := frame s (oracle k).1 (oracle k).2
    if r.cont then runAux fuel oracle (k + 1) r.app else some (0, r.app)

/-! ## Frame statistics

Timestamps are steady-clock readings in nanoseconds; the code stores each
phase as `duration_cast<microseconds>` of the difference of two readings
(truncating division by 1000). -/

/-- Stored per-phase frame statistics. -/
structure Stats where
  frame : Nat
  events : Nat
  update : Nat
  record : Nat
  present : Nat
deriving DecidableEq, Repr

/-- Microseconds between two nanosecond clock readings. -/
def usec (a b : Nat) : Nat := (b - a) / 1000

/-- The statistics assignment at the end of `Application::frame`
(timestamps in order of capture: start, update, record, present, end). -/
def frameStats (tStart tUpdate tRecord tPresent tEnd : Nat) : Stats :=
  { frame := usec tStart tEnd
    events := usec tStart tUpdate
    update := usec tUpdate tRecord
    record := usec tRecord tPresent
    present := usec tPresent tEnd }

/-! ## Command traces

A command is one public call made by application code.  A caller-created
view is a fresh allocation (a new object has a pointer distinct from every
live object), so `cAddView` draws the view id from the allocation counter;
null arguments are expressible through the option/flag parameters. -/

/-- One public call. -/
inductive Cmd where
  | cAddWindow (traitsOk : Bool)
  | cAddView (window : Option Nat) (nullView : Bool) (hasCamera : Bool) (hasOnCreate : Bool)
  | cRemoveView (view : Option Nat)
  | cFrame (advanceOk active : Bool)
deriving DecidableEq, Repr

/-- Executes one public call against the application state. -/
def execCmd (s : App) (c : Cmd) : App :=
  match c with
  | .cAddWindow ok => (addWindow s ok).1
  | .cAddView w nullView hasCam onc =>
    if nullView then (addView s w none onc).1
    else
      let vid := s.nextId
      let s1 := { s with nextId := vid + 1 }
      (addView s1 w (some ⟨vid, hasCam⟩) onc).1
  | .cRemoveView v => removeView s v
  | .cFrame a b => (frame s a b).app

/-- Executes a sequence of public calls. -/
def execTrace : App → List Cmd → App
  | s, [] => s
  | s, c :: cs => execTrace (execCmd s c) cs

/-! ## Association list lemmas -/

theorem lookupA_eq_none_of {α : Type} {l : List (Nat × α)} {k : Nat}
    (h : ∀ p ∈ l, p.1 ≠ k) : lookupA l k = none := by
  induction l with
  | nil => rfl
  | cons hd tl ih =>
    obtain ⟨k', v'⟩ := hd
    simp only [lookupA]
    rw [if_neg (h (k', v') (List.mem_cons_self _ _))]
    exact ih fun p hp => h p (List.mem_cons_of_mem _ hp)

theorem not_mem_keys_of_lookupA_none {α : Type} {l : List (Nat × α)} {k : Nat}
    (h : lookupA l k = none) : k ∉ l.map Prod.fst := by
  induction l with
  | nil => simp
  | cons hd tl ih =>
    obtain ⟨k', v'⟩ := hd
    simp only [lookupA] at h
    by_cases hk : k' = k
    · rw [if_pos hk] at h; exact absurd h (by simp)
    · rw [if_neg hk] at h
      simp only [List.map_cons, List.mem_cons]
      exact fun hc => hc.elim (fun he => hk he.symm) (ih h)

theorem lookupA_mem {α : Type} {l : List (Nat × α)} {k : Nat} {v : α}
    (h : lookupA l k = some v) : (k, v) ∈ l := by
  induction l with
  | nil => exact absurd h (by simp [lookupA])
  | cons hd tl ih =>
    obtain ⟨k', v'⟩ := hd
    simp only [lookupA] at h
    by_cases hk : k' = k
    · rw [if_pos hk] at h
      cases h
      exact hk ▸ List.mem_cons_self _ _
    · rw [if_neg hk] at h
      exact List.mem_cons_of_mem _ (ih h)

theorem lookupA_of_mem_nodup {α : Type} {l : List (Nat × α)} {k : Nat} {v : α}
    (hnd : (l.map Prod.fst).Nodup) (h : (k, v) ∈ l) : lookupA l k = some v := by
  induction l with
  | nil => simp at h
  | cons hd tl ih =>
    obtain ⟨k', v'⟩ := hd
    simp only [List.map_cons, List.nodup_cons] at hnd
    rcases List.mem_cons.mp h with he | ht
    · cases he
      simp [lookupA]
    · have hk : k' ≠ k := by
        intro he
        exact hnd.1 (he ▸ (List.mem_map.mpr ⟨(k, v), ht, rfl⟩))
      simp only [lookupA, if_neg hk]
      exact ih hnd.2 ht

theorem lookupA_isSome_of_mem_keys {α : Type} {l : List (Nat × α)} {k : Nat}
    (h : k ∈ l.map Prod.fst) : (lookupA l k).isSome := by
  induction l with
  | nil => simp at h
  | cons hd tl ih =>
    obtain ⟨k', v'⟩ := hd
    simp only [List.map_cons, List.mem_cons] at h
    by_cases hk : k' = k
    · simp [lookupA, hk]
    · simp only [lookupA, if_neg hk]
      exact ih (h.resolve_left fun he => hk he.symm)

theorem mem_keys_of_lookupA {α : Type} {l : List (Nat × α)} {k : Nat} {v : α}
    (h : lookupA l k = some v) : k ∈ l.map Prod.fst :=
  List.mem_map.mpr ⟨(k, v), lookupA_mem h, rfl⟩

theorem lookupA_append_some {α : Type} {l : List (Nat × α)} (l' : List (Nat × α))
    {k : Nat} {v : α} (h : lookupA l k = some v) : lookupA (l ++ l') k = some v := by
  induction l with
  | nil => exact absurd h (by simp [lookupA])
  | cons hd tl ih =>
    obtain ⟨k', v'⟩ := hd
    simp only [lookupA] at h
    by_cases hk : k' = k
    · rw [if_pos hk] at h
      simp [lookupA, if_pos hk, h]
    · rw [if_neg hk] at h
      simpa [lookupA, if_neg hk] using ih h

theorem lookupA_append_none {α : Type} {l : List (Nat × α)} (l' : List (Nat × α))
    {k : Nat} (h : lookupA l k = none) : lookupA (l ++ l') k = lookupA l' k := by
  induction l with
  | nil => rfl
  | cons hd tl ih =>
    obtain ⟨k', v'⟩ := hd
    simp only [lookupA] at h
    by_cases hk : k' = k
    · rw [if_pos hk] at h; cases h
    · rw [if_neg hk] at h
      simpa [lookupA, if_neg hk] using ih h

theorem lookupA_setA_self {α : Type} (l : List (Nat × α)) (k : Nat) (v : α) :
    lookupA (setA l k v) k = some v := by
  induction l with
  | nil => simp [setA, lookupA]
  | cons hd tl ih =>
    obtain ⟨k', v'⟩ := hd
    by_cases hk : k' = k
    · simp [setA, if_pos hk, lookupA]
    · simp [setA, if_neg hk, lookupA, if_neg hk, ih]

theorem lookupA_setA_ne {α : Type} (l : List (Nat × α)) {k k' : Nat} (v : α)
    (h : k' ≠ k) : lookupA (setA l k v) k' = lookupA l k' := by
  induction l with
  | nil => simp [setA, lookupA, Ne.symm h]
  | cons hd tl ih =>
    obtain ⟨k0, v0⟩ := hd
    by_cases hk : k0 = k
    · subst hk
      simp [setA, lookupA, Ne.symm h]
    · simp [setA, if_neg hk, lookupA, ih]

theorem setA_eq_append {α : Type} {l : List (Nat × α)} {k : Nat} (v : α)
    (h : lookupA l k = none) : setA l k v = l ++ [(k, v)] := by
  induction l with
  | nil => rfl
  | cons hd tl ih =>
    obtain ⟨k', v'⟩ := hd
    simp only [lookupA] at h
    by_cases hk : k' = k
    · rw [if_pos hk] at h; cases h
    · rw [if_neg hk] at h
      simp [setA, if_neg hk, ih h]

theorem keys_updateA {α : Type} (l : List (Nat × α)) (k : Nat) (f : α → α) :
    (updateA l k f).map Prod.fst = l.map Prod.fst := by
  induction l with
  | nil => rfl
  | cons hd tl ih =>
    obtain ⟨k', v'⟩ := hd
    by_cases hk : k' = k
    · simp [updateA, if_pos hk, hk]
    · simp [updateA, if_neg hk, ih]

theorem lookupA_updateA_self {α : Type} (l : List (Nat × α)) (k : Nat) (f : α → α) :
    lookupA (updateA l k f) k = (lookupA l k).map f := by
  induction l with
  | nil => rfl
  | cons hd tl ih =>
    obtain ⟨k', v'⟩ := hd
    by_cases hk : k' = k
    · simp [updateA, if_pos hk, lookupA, hk]
    · simp [updateA, if_neg hk, lookupA, ih]

theorem lookupA_updateA_ne {α : Type} (l : List (Nat × α)) {k k' : Nat} (f : α → α)
    (h : k' ≠ k) : lookupA (updateA l k f) k' = lookupA l k' := by
  induction l with
  | nil => rfl
  | cons hd tl ih =>
    obtain ⟨k0, v0⟩ := hd
    by_cases hk : k0 = k
    · subst hk
      simp [updateA, lookupA, Ne.symm h]
    · simp [updateA, if_neg hk, lookupA, ih]

theorem updateA_eq_of_none {α : Type} {l : List (Nat × α)} {k : Nat} (f : α → α)
    (h : lookupA l k = none) : updateA l k f = l := by
  induction l with
  | nil => rfl
  | cons hd tl ih =>
    obtain ⟨k', v'⟩ := hd
    simp only [lookupA] at h
    by_cases hk : k' = k
    · rw [if_pos hk] at h; cases h
    · rw [if_neg hk] at h
      simp [updateA, if_neg hk, ih h]

theorem keys_eraseA_sublist {α : Type} (l : List (Nat × α)) (k : Nat) :
    ((eraseA l k).map Prod.fst).Sublist (l.map Prod.fst) := by
  induction l with
  | nil => simp [eraseA]
  | cons hd tl ih =>
    obtain ⟨k', v'⟩ := hd
    by_cases hk : k' = k
    · simp only [eraseA, if_pos hk, List.map_cons]
      exact List.sublist_cons_of_sublist _ (List.Sublist.refl _)
    · simp only [eraseA, if_neg hk, List.map_cons]
      exact List.Sublist.cons₂ _ ih

theorem eraseA_subset {α : Type} {l : List (Nat × α)} {k : Nat} :
    ∀ p ∈ eraseA l k, p ∈ l := by
  induction l with
  | nil => simp [eraseA]
  | cons hd tl ih =>
    obtain ⟨k', v'⟩ := hd
    by_cases hk : k' = k
    · simp only [eraseA, if_pos hk]
      exact fun p hp => List.mem_cons_of_mem _ hp
    · simp only [eraseA, if_neg hk]
      intro p hp
      rcases List.mem_cons.mp hp with he | ht
      · exact he ▸ List.mem_cons_self _ _
      · exact List.mem_cons_of_mem _ (ih p ht)

theorem lookupA_eraseA_ne {α : Type} {l : List (Nat × α)} {k k' : Nat}
    (hnd : (l.map Prod.fst).Nodup) (h : k' ≠ k) :
    lookupA (eraseA l k) k' = lookupA l k' := by
  induction l with
  | nil => rfl
  | cons hd tl ih =>
    obtain ⟨k0, v0⟩ := hd
    simp only [List.map_cons, List.nodup_cons] at hnd
    by_cases hk : k0 = k
    · subst hk
      simp [eraseA, lookupA, Ne.symm h]
    · simp [eraseA, if_neg hk, lookupA, ih hnd.2]

theorem lookupA_eraseA_self {α : Type} {l : List (Nat × α)} {k : Nat}
    (hnd : (l.map Prod.fst).Nodup) : lookupA (eraseA l k) k = none := by
  induction l with
  | nil => rfl
  | cons hd tl ih =>
    obtain ⟨k0, v0⟩ := hd
    simp only [List.map_cons, List.nodup_cons] at hnd
    by_cases hk : k0 = k
    · subst hk
      simp only [eraseA, if_pos rfl]
      exact lookupA_eq_none_of fun p hp he =>
        hnd.1 (he ▸ List.mem_map.mpr ⟨p, hp, rfl⟩)
    · simp [eraseA, if_neg hk, lookupA, if_neg hk, ih hnd.2]

/-! ## Flattened-table counting -/

/-- Occurrences of `x` in the concatenation of a projection over the values
of an association list. -/
def flatCount {α : Type} (g : α → List Nat) (l : List (Nat × α)) (x : Nat) : Nat :=
  ((l.map fun p => g p.2).flatten).count x

theorem flatCount_nil {α : Type} (g : α → List Nat) (x : Nat) :
    flatCount g ([] : List (Nat × α)) x = 0 := rfl

theorem flatCount_cons {α : Type} (g : α → List Nat) (p : Nat × α)
    (l : List (Nat × α)) (x : Nat) :
    flatCount g (p :: l) x = (g p.2).count x + flatCount g l x := by
  simp [flatCount, List.count_append]

theorem flatCount_append {α : Type} (g : α → List Nat) (l l' : List (Nat × α)) (x : Nat) :
    flatCount g (l ++ l') x = flatCount g l x + flatCount g l' x := by
  simp [flatCount, List.count_append]

theorem flatCount_updateA {α : Type} (g : α → List Nat) {l : List (Nat × α)}
    {k : Nat} {a : α} (f : α → α) (x : Nat) (h : lookupA l k = some a) :
    flatCount g (updateA l k f) x + (g a).count x
      = flatCount g l x + (g (f a)).count x := by
  induction l with
  | nil => exact absurd h (by simp [lookupA])
  | cons hd tl ih =>
    obtain ⟨k', v'⟩ := hd
    simp only [lookupA] at h
    by_cases hk : k' = k
    · rw [if_pos hk] at h
      cases h
      simp only [updateA, if_pos hk, flatCount_cons]
      omega
    · rw [if_neg hk] at h
      have := ih h
      simp only [updateA, if_neg hk, flatCount_cons]
      omega

theorem mem_flat_iff {α : Type} (g : α → List Nat) (l : List (Nat × α)) (x : Nat) :
    x ∈ (l.map fun p => g p.2).flatten ↔ ∃ p ∈ l, x ∈ g p.2 := by
  simp only [List.mem_flatten, List.mem_map]
  constructor
  · rintro ⟨ys, ⟨p, hp, rfl⟩, hx⟩
    exact ⟨p, hp, hx⟩
  · rintro ⟨p, hp, hx⟩
    exact ⟨g p.2, ⟨p, hp, rfl⟩, hx⟩

theorem flatCount_pos_iff {α : Type} (g : α → List Nat) (l : List (Nat × α)) (x : Nat) :
    0 < flatCount g l x ↔ x ∈ (l.map fun p => g p.2).flatten := by
  simp [flatCount, List.count_pos_iff]

/-! ## Derived views of the state -/

/-- Every view attached anywhere in the display configuration, in table
order. -/
def allDispViews (s : App) : List Nat := (s.dispWindows.map fun p => p.2).flatten

/-- Number of display-configuration entries for a view across all windows. -/
def totalViewCount (s : App) (v : Nat) : Nat := (allDispViews s).count v

/-- Ordered view list of one window in the display configuration. -/
def viewsOf (s : App) (w : Nat) : List Nat := (lookupA s.dispWindows w).getD []

/-- Number of display-configuration entries for a view under one window. -/
def countIn (s : App) (w v : Nat) : Nat := (viewsOf s w).count v

/-- Identities of every render graph child of every registered command
graph. -/
def rgIdList (s : App) : List Nat :=
  (s.commandGraphByWindow.map fun p => p.2.children.map RenderGraphObj.id).flatten

theorem totalViewCount_eq_flatCount (s : App) (v : Nat) :
    totalViewCount s v = flatCount (fun vs => vs) s.dispWindows v := rfl

theorem rgIdList_count_eq_flatCount (s : App) (x : Nat) :
    (rgIdList s).count x
      = flatCount (fun c => c.children.map RenderGraphObj.id) s.commandGraphByWindow x := rfl

/-! ## The mutual-consistency property and the inductive invariant -/

/-- Mutual consistency of the display configuration and the command-graph
registry, exactly as the spec states it: every view listed under a window
has a `_viewData` render graph that is a view-bearing child of that window
command graph, and every view-bearing render graph child of a registered
command graph corresponds to exactly one display-configuration entry (its
view occurs exactly once overall, under that window, with matching
`_viewData`). -/
def Consistent (s : App) : Prop :=
  (∀ w ∈ s.dispWindows.map Prod.fst, ∀ v ∈ viewsOf s w,
    ∃ cg ∈ (lookupA s.commandGraphByWindow w).toList,
      ∃ r ∈ cg.children, lookupA s.viewData v = some r.id ∧ r.view = some v)
  ∧ ∀ w ∈ s.commandGraphByWindow.map Prod.fst,
      ∀ cg ∈ (lookupA s.commandGraphByWindow w).toList,
        ∀ r ∈ cg.children, ∀ v ∈ r.view.toList,
          lookupA s.viewData v = some r.id ∧ totalViewCount s v = 1 ∧ countIn s w v = 1

/-- Every id stored in the three structural tables is below the allocation
counter (object identities are never forged ahead of allocation). -/
def Bound (s : App) : Prop :=
  (∀ w ∈ s.dispWindows.map Prod.fst, w < s.nextId)
  ∧ (∀ v ∈ allDispViews s, v < s.nextId)
  ∧ (∀ w ∈ s.commandGraphByWindow.map Prod.fst, w < s.nextId)
  ∧ (∀ x ∈ rgIdList s, x < s.nextId)
  ∧ (∀ p ∈ s.viewData, p.1 < s.nextId)

/-- The structural inductive invariant: mutual consistency, no duplicate
keys or entries in any table, `_viewData` keyed exactly by attached views,
and allocation bounds. -/
def InvCore (s : App) : Prop :=
  Consistent s
  ∧ (s.dispWindows.map Prod.fst).Nodup
  ∧ (s.commandGraphByWindow.map Prod.fst).Nodup
  ∧ (allDispViews s).Nodup
  ∧ (rgIdList s).Nodup
  ∧ (s.viewData.map Prod.fst).Nodup
  ∧ (∀ p ∈ s.viewData, p.1 ∈ allDispViews s)
  ∧ Bound s

/-- View ids captured inside queued deferred view-attach operations. -/
def pendingViews (ops : List PendingOp) : List Nat :=
  ops.filterMap fun op =>
    match op with
    | .addViewOp _ v _ _ => some v.id
    | _ => none

/-- Queued view-attach operations hold pairwise-distinct views that are not
yet attached (each was a freshly created object when queued). -/
def OpsOk (s : App) (ops : List PendingOp) : Prop :=
  (pendingViews ops).Nodup
  ∧ ∀ vid ∈ pendingViews ops,
      vid < s.nextId ∧ vid ∉ allDispViews s ∧ lookupA s.viewData vid = none

/-- Full invariant carried through command traces. -/
def Inv (s : App) : Prop := InvCore s ∧ OpsOk s s.pending

/-! ## Behaviour of the display-configuration append -/

theorem lookupA_appendView_self (l : List (Nat × List Nat)) (w v : Nat) :
    lookupA (appendView l w v) w = some ((lookupA l w).getD [] ++ [v]) := by
  unfold appendView
  cases h : lookupA l w with
  | some vs => simp [lookupA_updateA_self, h]
  | none =>
    rw [lookupA_append_none _ h]
    simp [lookupA]

theorem lookupA_appendView_ne (l : List (Nat × List Nat)) {w w' : Nat} (v : Nat)
    (h : w' ≠ w) : lookupA (appendView l w v) w' = lookupA l w' := by
  unfold appendView
  cases hl : lookupA l w with
  | some vs => exact lookupA_updateA_ne _ _ h
  | none =>
    cases h2 : lookupA l w' with
    | some u => exact lookupA_append_some _ h2
    | none =>
      rw [lookupA_append_none _ h2]
      simp [lookupA, Ne.symm h]

theorem keys_appendView_nodup {l : List (Nat × List Nat)} (w v : Nat)
    (h : (l.map Prod.fst).Nodup) : ((appendView l w v).map Prod.fst).Nodup := by
  unfold appendView
  cases hl : lookupA l w with
  | some vs => rw [keys_updateA]; exact h
  | none =>
    have hw : w ∉ l.map Prod.fst := not_mem_keys_of_lookupA_none hl
    simp only [List.map_append, List.map_cons, List.map_nil]
    rw [List.nodup_append]
    refine ⟨h, List.nodup_singleton _, ?_⟩
    intro x hx hx2
    simp only [List.mem_singleton] at hx2
    exact hw (hx2 ▸ hx)

theorem mem_keys_appendView {l : List (Nat × List Nat)} {w v w' : Nat}
    (h : w' ∈ (appendView l w v).map Prod.fst) :
    w' ∈ l.map Prod.fst ∨ w' = w := by
  unfold appendView at h
  cases hl : lookupA l w with
  | some vs =>
    rw [hl] at h
    rw [keys_updateA] at h
    exact Or.inl h
  | none =>
    rw [hl] at h
    simp only [List.map_append, List.map_cons, List.map_nil, List.mem_append,
      List.mem_cons, List.not_mem_nil, or_false] at h
    exact h

theorem flatCount_appendView (l : List (Nat × List Nat)) (w v x : Nat) :
    flatCount (fun vs => vs) (appendView l w v) x
      = flatCount (fun vs => vs) l x + List.count x [v] := by
  unfold appendView
  split
  next vs hl =>
    have h := flatCount_updateA (fun vs => vs) (fun vs => vs ++ [v]) x hl
    simp only [List.count_append] at h
    omega
  next hl =>
    rw [flatCount_append]
    simp [flatCount_cons, flatCount_nil]

/-! ## Behaviour of the shared view-attach mutation -/

theorem attachView_disp (s : App) (w v : Nat) :
    (attachView s w v).dispWindows = appendView s.dispWindows w v := rfl

theorem attachView_cg (s : App) (w v : Nat) :
    (attachView s w v).commandGraphByWindow
      = updateA s.commandGraphByWindow w
          (fun c => { c with children := c.children ++ [⟨s.nextId, some v⟩] }) := rfl

theorem attachView_vd (s : App) (w v : Nat) :
    (attachView s w v).viewData = setA s.viewData v s.nextId := rfl

theorem attachView_nextId (s : App) (w v : Nat) :
    (attachView s w v).nextId = s.nextId + 1 := rfl

theorem totalViewCount_attachView (s : App) (w v x : Nat) :
    totalViewCount (attachView s w v) x = totalViewCount s x + List.count x [v] := by
  rw [totalViewCount_eq_flatCount, totalViewCount_eq_flatCount, attachView_disp]
  exact flatCount_appendView _ _ _ _

theorem viewsOf_attachView_self (s : App) (w v : Nat) :
    viewsOf (attachView s w v) w = viewsOf s w ++ [v] := by
  unfold viewsOf
  rw [attachView_disp, lookupA_appendView_self]
  rfl

theorem viewsOf_attachView_ne (s : App) {w w' : Nat} (v : Nat) (h : w' ≠ w) :
    viewsOf (attachView s w v) w' = viewsOf s w' := by
  unfold viewsOf
  rw [attachView_disp, lookupA_appendView_ne _ _ h]

theorem rgCount_attachView (s : App) {w : Nat} (v x : Nat) {cg : CommandGraphObj}
    (hcg : lookupA s.commandGraphByWindow w = some cg) :
    (rgIdList (attachView s w v)).count x
      = (rgIdList s).count x + List.count x [s.nextId] := by
  rw [rgIdList_count_eq_flatCount, rgIdList_count_eq_flatCount, attachView_cg]
  have h := flatCount_updateA (fun c => c.children.map RenderGraphObj.id)
    (fun c => { c with children := c.children ++ [⟨s.nextId, some v⟩] }) x hcg
  simp only [List.map_append, List.count_append, List.map_cons, List.map_nil] at h
  simpa using by omega

theorem mem_allDispViews_iff (s : App) (x : Nat) :
    x ∈ allDispViews s ↔ 0 < totalViewCount s x :=
  (List.count_pos_iff).symm

theorem mem_allDispViews_of_viewsOf {s : App} {w u : Nat} (h : u ∈ viewsOf s w) :
    u ∈ allDispViews s := by
  unfold viewsOf at h
  cases hq : lookupA s.dispWindows w with
  | none => rw [hq] at h; simp at h
  | some vs =>
    rw [hq] at h
    exact (mem_flat_iff (fun vs => vs) _ _).mpr ⟨(w, vs), lookupA_mem hq, h⟩

theorem sublist_flatten_of_mem {α : Type} (g : α → List Nat) {l : List (Nat × α)}
    {p : Nat × α} (h : p ∈ l) :
    (g p.2).Sublist ((l.map fun q => g q.2).flatten) := by
  induction l with
  | nil => simp at h
  | cons hd tl ih =>
    rcases List.mem_cons.mp h with he | ht
    · subst he
      simp only [List.map_cons, List.flatten_cons]
      exact List.sublist_append_left _ _
    · simp only [List.map_cons, List.flatten_cons]
      exact List.Sublist.trans (ih ht) (List.sublist_append_right _ _)

theorem countIn_le_total (s : App) (w v : Nat) : countIn s w v ≤ totalViewCount s v := by
  unfold countIn viewsOf
  cases hq : lookupA s.dispWindows w with
  | none => simp
  | some vs =>
    exact (sublist_flatten_of_mem (fun vs => vs) (lookupA_mem hq)).count_le _

theorem count_single_self (a : Nat) : List.count a [a] = 1 := by simp

theorem count_single_ne {a b : Nat} (h : a ≠ b) : List.count a [b] = 0 := by
  simp [List.count_cons, h]

theorem count_filter_ne (vs : List Nat) (v x : Nat) :
    (vs.filter fun u => u ≠ v).count x = if x = v then 0 else vs.count x := by
  induction vs with
  | nil => simp
  | cons a tl ih =>
    simp only [ne_eq, decide_not] at ih ⊢
    by_cases hxv : x = v
    · subst hxv
      simp only [if_pos rfl] at ih ⊢
      simp only [List.filter_cons]
      by_cases hav : a = x
      · simp [hav, ih]
      · have hax : ¬(a = x) := hav
        simp [hax, List.count_cons, ih]
    · simp only [if_neg hxv] at ih ⊢
      simp only [List.filter_cons]
      by_cases hav : a = v
      · have hvx : ¬(v = x) := fun he => hxv he.symm
        have hax : ¬(a = x) := fun he => hxv (he.symm.trans hav)
        simp [hav, List.count_cons, ih, hvx]
      · simp [hav, List.count_cons, ih]

theorem map_id_filter_ne (l : List RenderGraphObj) (rg : Nat) :
    ((l.filter fun r => r.id ≠ rg).map RenderGraphObj.id)
      = (l.map RenderGraphObj.id).filter fun x => x ≠ rg := by
  induction l with
  | nil => rfl
  | cons a tl ih =>
    simp only [ne_eq, decide_not] at ih ⊢
    simp only [List.filter_cons, List.map_cons]
    by_cases ha : a.id = rg
    · simp [ha, ih]
    · simp [ha, ih]

theorem count_lookup_le_flat {α : Type} (g : α → List Nat) {l : List (Nat × α)}
    {w : Nat} {a : α} (ha : lookupA l w = some a) (x : Nat) :
    (g a).count x ≤ flatCount g l x :=
  (sublist_flatten_of_mem g (lookupA_mem ha)).count_le _

theorem count_pair_le_flat {α : Type} (g : α → List Nat) {l : List (Nat × α)}
    (hnd : (l.map Prod.fst).Nodup) {w w' : Nat} (hne : w ≠ w') {a b : α}
    (ha : lookupA l w = some a) (hb : lookupA l w' = some b) (x : Nat) :
    (g a).count x + (g b).count x ≤ flatCount g l x := by
  induction l with
  | nil => exact absurd ha (by simp [lookupA])
  | cons hd tl ih =>
    obtain ⟨k, c⟩ := hd
    simp only [List.map_cons, List.nodup_cons] at hnd
    simp only [lookupA] at ha hb
    rw [flatCount_cons]
    show (g a).count x + (g b).count x ≤ (g c).count x + flatCount g tl x
    by_cases hkw : k = w
    · have hkw' : ¬(k = w') := fun he => hne (hkw.symm.trans he)
      rw [if_pos hkw] at ha
      rw [if_neg hkw'] at hb
      have hca : c = a := by injection ha
      have h2 := count_lookup_le_flat g hb x
      rw [← hca]
      omega
    · rw [if_neg hkw] at ha
      by_cases hkw2 : k = w'
      · rw [if_pos hkw2] at hb
        have hcb : c = b := by injection hb
        have h2 := count_lookup_le_flat g ha x
        rw [← hcb]
        omega
      · rw [if_neg hkw2] at hb
        have := ih hnd.2 ha hb
        omega

theorem mem_eraseA_nodup {α : Type} {l : List (Nat × α)} {k : Nat}
    (hnd : (l.map Prod.fst).Nodup) {p : Nat × α} (hp : p ∈ eraseA l k) :
    p ∈ l ∧ p.1 ≠ k := by
  induction l with
  | nil => simp [eraseA] at hp
  | cons hd tl ih =>
    obtain ⟨k0, v0⟩ := hd
    simp only [List.map_cons, List.nodup_cons] at hnd
    by_cases hk : k0 = k
    · rw [eraseA, if_pos hk] at hp
      refine ⟨List.mem_cons_of_mem _ hp, ?_⟩
      intro he
      exact hnd.1 (by rw [hk, ← he]; exact List.mem_map.mpr ⟨p, hp, rfl⟩)
    · rw [eraseA, if_neg hk] at hp
      rcases List.mem_cons.mp hp with he | ht
      · exact ⟨he ▸ List.mem_cons_self _ _, by rw [he]; exact hk⟩
      · have h2 := ih hnd.2 ht
        exact ⟨List.mem_cons_of_mem _ h2.1, h2.2⟩

theorem getWindow_spec {s : App} {v w : Nat}
    (hnd : (s.dispWindows.map Prod.fst).Nodup) (h : getWindow s v = some w) :
    w ∈ s.dispWindows.map Prod.fst ∧ v ∈ viewsOf s w := by
  unfold getWindow at h
  cases hf : s.dispWindows.find? (fun wv => wv.2.contains v) with
  | none => rw [hf] at h; cases h
  | some p =>
    rw [hf] at h
    obtain rfl : p.1 = w := by simpa using h
    have hmem : (p.1, p.2) ∈ s.dispWindows := by simpa using List.mem_of_find?_eq_some hf
    have hv : v ∈ p.2 := by simpa using List.find?_some hf
    have hlk : lookupA s.dispWindows p.1 = some p.2 := lookupA_of_mem_nodup hnd hmem
    refine ⟨mem_keys_of_lookupA hlk, ?_⟩
    unfold viewsOf
    rw [hlk]
    exact hv

/-- The attach mutation preserves the structural invariant when the window
has a registered command graph and the view is a fresh object: not yet
attached anywhere, absent from `_viewData`, and already allocated. -/
theorem invCore_attachView {s : App} {w v : Nat} {cg : CommandGraphObj}
    (hinv : InvCore s)
    (hcg : lookupA s.commandGraphByWindow w = some cg)
    (hvn : v ∉ allDispViews s)
    (hvd : lookupA s.viewData v = none)
    (hvlt : v < s.nextId) :
    InvCore (attachView s w v) := by
  obtain ⟨⟨hc1, hc2⟩, hndd, hndc, hnda, hndr, hndv, hdom, hbd, hbv, hbcw, hbrg, hbvd⟩ := hinv
  have hLVv : lookupA (attachView s w v).viewData v = some s.nextId := by
    rw [attachView_vd]; exact lookupA_setA_self _ _ _
  have hLV : ∀ u, u ≠ v →
      lookupA (attachView s w v).viewData u = lookupA s.viewData u := by
    intro u hu; rw [attachView_vd]; exact lookupA_setA_ne _ _ hu
  have hLCw : lookupA (attachView s w v).commandGraphByWindow w
      = some { cg with children := cg.children ++ [⟨s.nextId, some v⟩] } := by
    rw [attachView_cg, lookupA_updateA_self, hcg]; rfl
  have hLC : ∀ w', w' ≠ w →
      lookupA (attachView s w v).commandGraphByWindow w'
        = lookupA s.commandGraphByWindow w' := by
    intro w' hw'; rw [attachView_cg]; exact lookupA_updateA_ne _ _ hw'
  have hTC : ∀ x, totalViewCount (attachView s w v) x
      = totalViewCount s x + List.count x [v] :=
    fun x => totalViewCount_attachView s w v x
  have hRC : ∀ x, (rgIdList (attachView s w v)).count x
      = (rgIdList s).count x + List.count x [s.nextId] :=
    fun x => rgCount_attachView s v x hcg
  have hTCv : totalViewCount s v = 0 := List.count_eq_zero_of_not_mem hvn
  have hattne : ∀ u, 0 < totalViewCount s u → u ≠ v := by
    intro u hu he
    subst he
    omega
  have hrgfresh : (rgIdList s).count s.nextId = 0 :=
    List.count_eq_zero_of_not_mem fun hm => lt_irrefl _ (hbrg _ hm)
  have hwkeys : w ∈ s.commandGraphByWindow.map Prod.fst := mem_keys_of_lookupA hcg
  refine ⟨⟨?_, ?_⟩, ?_, ?_, ?_, ?_, ?_, ?_, ?_, ?_, ?_, ?_, ?_⟩
  · -- every display-configuration view links to a view-bearing render graph
    intro w' hw' u hu
    by_cases hww : w' = w
    · rw [hww] at hu ⊢
      rw [viewsOf_attachView_self] at hu
      rcases List.mem_append.mp hu with hold | hnew
      · have hwk : w ∈ s.dispWindows.map Prod.fst := by
          unfold viewsOf at hold
          cases hq : lookupA s.dispWindows w with
          | none => rw [hq] at hold; simp at hold
          | some vs => exact mem_keys_of_lookupA hq
        obtain ⟨cg0, hcg0, r, hr, hvd0, hview⟩ := hc1 w hwk u hold
        rw [hcg] at hcg0
        simp only [Option.toList_some, List.mem_singleton] at hcg0
        rw [hcg0] at hr
        have hune : u ≠ v := fun he => hvn (he ▸ mem_allDispViews_of_viewsOf hold)
        simp only [hLCw, Option.toList_some, List.mem_singleton]
        refine ⟨_, rfl, r, List.mem_append_left _ hr, ?_, hview⟩
        rw [hLV u hune]
        exact hvd0
      · have huv : u = v := by simpa using hnew
        simp only [hLCw, Option.toList_some, List.mem_singleton]
        refine ⟨_, rfl, ⟨s.nextId, some v⟩, List.mem_append_right _ (by simp),
          ?_, by rw [huv]⟩
        rw [huv]
        exact hLVv
    · have hw'' : w' ∈ s.dispWindows.map Prod.fst := by
        rcases mem_keys_appendView hw' with hmem | he
        · exact hmem
        · exact absurd he hww
      rw [viewsOf_attachView_ne _ _ hww] at hu
      obtain ⟨cg0, hcg0, r, hr, hvd0, hview⟩ := hc1 w' hw'' u hu
      have hune : u ≠ v := fun he => hvn (he ▸ mem_allDispViews_of_viewsOf hu)
      refine ⟨cg0, ?_, r, hr, ?_, hview⟩
      · rw [hLC w' hww]; exact hcg0
      · rw [hLV u hune]; exact hvd0
  · -- every view-bearing render graph corresponds to exactly one entry
    intro w' hw' cg' hcg' r hr u hu
    have hw'' : w' ∈ s.commandGraphByWindow.map Prod.fst := by
      rw [attachView_cg, keys_updateA] at hw'
      exact hw'
    by_cases hww : w' = w
    · rw [hww] at hcg' ⊢
      rw [hLCw] at hcg'
      simp only [Option.toList_some, List.mem_singleton] at hcg'
      rw [hcg'] at hr
      rcases List.mem_append.mp hr with hrold | hrnew
      · obtain ⟨hvd0, htot, hcin⟩ :=
          hc2 w hwkeys cg (by rw [hcg]; simp) r hrold u hu
        have hune : u ≠ v := hattne u (by omega)
        refine ⟨?_, ?_, ?_⟩
        · rw [hLV u hune]; exact hvd0
        · rw [hTC u, count_single_ne hune]; omega
        · unfold countIn
          rw [viewsOf_attachView_self, List.count_append, count_single_ne hune]
          unfold countIn at hcin
          omega
      · have hre : r = ⟨s.nextId, some v⟩ := by simpa using hrnew
        have huv : u = v := by
          rw [hre] at hu
          simpa using hu
        have hcin0 : countIn s w v = 0 := by
          have h1 := countIn_le_total s w v
          omega
        refine ⟨?_, ?_, ?_⟩
        · rw [huv, hre]
          exact hLVv
        · rw [huv, hTC v, hTCv, count_single_self]
        · rw [huv]
          unfold countIn
          rw [viewsOf_attachView_self, List.count_append, count_single_self]
          unfold countIn at hcin0
          omega
    · rw [hLC w' hww] at hcg'
      obtain ⟨hvd0, htot, hcin⟩ := hc2 w' hw'' cg' hcg' r hr u hu
      have hune : u ≠ v := hattne u (by omega)
      refine ⟨?_, ?_, ?_⟩
      · rw [hLV u hune]; exact hvd0
      · rw [hTC u, count_single_ne hune]; omega
      · unfold countIn
        rw [viewsOf_attachView_ne _ _ hww]
        exact hcin
  · -- display-configuration keys stay duplicate free
    exact keys_appendView_nodup _ _ hndd
  · -- command-graph registry keys stay duplicate free
    rw [attachView_cg, keys_updateA]
    exact hndc
  · -- attached views stay duplicate free
    rw [List.nodup_iff_count_le_one]
    intro u
    have h1 : totalViewCount s u ≤ 1 := List.nodup_iff_count_le_one.mp hnda u
    show totalViewCount (attachView s w v) u ≤ 1
    rw [hTC u]
    by_cases huv : u = v
    · rw [huv, count_single_self, hTCv]
    · rw [count_single_ne huv]
      omega
  · -- render-graph identities stay duplicate free
    rw [List.nodup_iff_count_le_one]
    intro x
    have h1 : (rgIdList s).count x ≤ 1 := List.nodup_iff_count_le_one.mp hndr x
    show (rgIdList (attachView s w v)).count x ≤ 1
    rw [hRC x]
    by_cases hx : x = s.nextId
    · rw [hx, count_single_self, hrgfresh]
    · rw [count_single_ne hx]
      omega
  · -- view-data keys stay duplicate free
    rw [attachView_vd, setA_eq_append _ hvd]
    simp only [List.map_append, List.map_cons, List.map_nil]
    rw [List.nodup_append]
    refine ⟨hndv, List.nodup_singleton _, ?_⟩
    intro x hx hx2
    simp only [List.mem_singleton] at hx2
    exact not_mem_keys_of_lookupA_none hvd (hx2 ▸ hx)
  · -- view-data keys remain attached views
    intro p hp
    rw [attachView_vd, setA_eq_append _ hvd] at hp
    rw [mem_allDispViews_iff, hTC]
    rcases List.mem_append.mp hp with hpo | hpn
    · have := (mem_allDispViews_iff s p.1).mp (hdom p hpo)
      omega
    · have : p.1 = v := by
        simp only [List.mem_singleton] at hpn
        rw [hpn]
      rw [this, count_single_self]
      omega
  · -- allocation bound: display keys
    intro w' hw'
    rw [attachView_nextId]
    rcases mem_keys_appendView hw' with hmem | he
    · exact lt_trans (hbd w' hmem) (Nat.lt_succ_self _)
    · subst he
      exact lt_trans (hbcw w' hwkeys) (Nat.lt_succ_self _)
  · -- allocation bound: attached views
    intro u hu
    rw [attachView_nextId]
    rw [mem_allDispViews_iff, hTC] at hu
    by_cases huv : u = v
    · rw [huv]
      exact lt_trans hvlt (Nat.lt_succ_self _)
    · rw [count_single_ne huv] at hu
      have : u ∈ allDispViews s := (mem_allDispViews_iff s u).mpr (by omega)
      exact lt_trans (hbv u this) (Nat.lt_succ_self _)
  · -- allocation bound: command-graph keys
    intro w' hw'
    rw [attachView_nextId]
    rw [attachView_cg, keys_updateA] at hw'
    exact lt_trans (hbcw w' hw') (Nat.lt_succ_self _)
  · -- allocation bound: render-graph identities
    intro x hx
    rw [attachView_nextId]
    have hpos : 0 < (rgIdList (attachView s w v)).count x := List.count_pos_iff.mpr hx
    rw [hRC x] at hpos
    by_cases hxn : x = s.nextId
    · rw [hxn]
      exact Nat.lt_succ_self _
    · rw [count_single_ne hxn] at hpos
      have : x ∈ rgIdList s := List.count_pos_iff.mp (by omega)
      exact lt_trans (hbrg x this) (Nat.lt_succ_self _)
  · -- allocation bound: view-data keys
    intro p hp
    rw [attachView_nextId]
    rw [attachView_vd, setA_eq_append _ hvd] at hp
    rcases List.mem_append.mp hp with hpo | hpn
    · exact lt_trans (hbvd p hpo) (Nat.lt_succ_self _)
    · have : p.1 = v := by
        simp only [List.mem_singleton] at hpn
        rw [hpn]
      rw [this]
      exact lt_trans hvlt (Nat.lt_succ_self _)

theorem count_pair_getD_le_flat {l : List (Nat × List Nat)}
    (hnd : (l.map Prod.fst).Nodup) {w w' : Nat} (hne : w ≠ w') (x : Nat) :
    ((lookupA l w).getD []).count x + ((lookupA l w').getD []).count x
      ≤ flatCount (fun vs => vs) l x := by
  cases hqa : lookupA l w with
  | none =>
    simp only [Option.getD_none, List.count_nil, Nat.zero_add]
    cases hqb : lookupA l w' with
    | none => simp
    | some vs2 =>
      simp only [Option.getD_some]
      exact count_lookup_le_flat (fun vs => vs) hqb x
  | some vs =>
    cases hqb : lookupA l w' with
    | none =>
      simp only [Option.getD_none, List.count_nil, Nat.add_zero, Option.getD_some]
      exact count_lookup_le_flat (fun vs => vs) hqa x
    | some vs2 =>
      simp only [Option.getD_some]
      exact count_pair_le_flat (fun vs => vs) hnd hne hqa hqb x

theorem countIn_pair_le_total {s : App}
    (hnd : (s.dispWindows.map Prod.fst).Nodup) {w w' : Nat} (hne : w ≠ w')
    (x : Nat) : countIn s w x + countIn s w' x ≤ totalViewCount s x :=
  count_pair_getD_le_flat hnd hne x

/-! ## Behaviour of the detach mutation -/

theorem detachView_disp (s : App) (w v rgId : Nat) :
    (detachView s w v rgId).dispWindows
      = updateA s.dispWindows w (fun vs => vs.filter (fun u => u ≠ v)) := rfl

theorem detachView_cg (s : App) (w v rgId : Nat) :
    (detachView s w v rgId).commandGraphByWindow
      = updateA s.commandGraphByWindow w
          (fun c => { c with children := c.children.filter (fun r => r.id ≠ rgId) }) := rfl

theorem detachView_vd (s : App) (w v rgId : Nat) :
    (detachView s w v rgId).viewData = eraseA s.viewData v := rfl

theorem detachView_nextId (s : App) (w v rgId : Nat) :
    (detachView s w v rgId).nextId = s.nextId := rfl

/-- The detach mutation preserves the structural invariant whenever the
detached view really is attached under the window and keyed in `_viewData`
(the situation the removal lookups establish). -/
theorem invCore_detachView {s : App} {w v rgId : Nat}
    (hinv : InvCore s) (hvw : v ∈ viewsOf s w)
    (hvdv : lookupA s.viewData v = some rgId) :
    InvCore (detachView s w v rgId) := by
  obtain ⟨⟨hc1, hc2⟩, hndd, hndc, hnda, hndr, hndv, hdom, hbd, hbv, hbcw, hbrg, hbvd⟩ := hinv
  have hwkey : w ∈ s.dispWindows.map Prod.fst := by
    unfold viewsOf at hvw
    cases hq : lookupA s.dispWindows w with
    | none => rw [hq] at hvw; simp at hvw
    | some vs => exact mem_keys_of_lookupA hq
  obtain ⟨cg0, hcg0, r, hr, hvdr, hview⟩ := hc1 w hwkey v hvw
  have hcgW : lookupA s.commandGraphByWindow w = some cg0 := by
    cases hq : lookupA s.commandGraphByWindow w with
    | none => rw [hq] at hcg0; simp at hcg0
    | some c =>
      rw [hq] at hcg0
      simp only [Option.toList_some, List.mem_singleton] at hcg0
      rw [hcg0]
  have hrid : r.id = rgId := by
    rw [hvdv] at hvdr
    exact (Option.some_inj.mp hvdr).symm
  have hcgkey : w ∈ s.commandGraphByWindow.map Prod.fst := mem_keys_of_lookupA hcgW
  obtain ⟨hvdr2, htot, hcin⟩ :=
    hc2 w hcgkey cg0 (by rw [hcgW]; simp) r hr v (by rw [hview]; simp)
  obtain ⟨vsW, hq⟩ : ∃ vs, lookupA s.dispWindows w = some vs :=
    Option.isSome_iff_exists.mp (lookupA_isSome_of_mem_keys hwkey)
  have hviewsW : viewsOf s w = vsW := by
    unfold viewsOf
    rw [hq]
    rfl
  have hLDw : viewsOf (detachView s w v rgId) w = vsW.filter (fun u => u ≠ v) := by
    unfold viewsOf
    rw [detachView_disp, lookupA_updateA_self, hq]
    rfl
  have hLDne : ∀ w2, w2 ≠ w → viewsOf (detachView s w v rgId) w2 = viewsOf s w2 := by
    intro w2 hww
    unfold viewsOf
    rw [detachView_disp, lookupA_updateA_ne _ _ hww]
  have hLVv : lookupA (detachView s w v rgId).viewData v = none := by
    rw [detachView_vd]; exact lookupA_eraseA_self hndv
  have hLV : ∀ u, u ≠ v →
      lookupA (detachView s w v rgId).viewData u = lookupA s.viewData u := by
    intro u hu
    rw [detachView_vd]; exact lookupA_eraseA_ne hndv hu
  have hLCw : lookupA (detachView s w v rgId).commandGraphByWindow w
      = some { cg0 with children := cg0.children.filter (fun r => r.id ≠ rgId) } := by
    rw [detachView_cg, lookupA_updateA_self, hcgW]
    rfl
  have hLC : ∀ w2, w2 ≠ w → lookupA (detachView s w v rgId).commandGraphByWindow w2
      = lookupA s.commandGraphByWindow w2 := by
    intro w2 hww
    rw [detachView_cg]
    exact lookupA_updateA_ne _ _ hww
  have hvsWc : vsW.count v = 1 := by
    unfold countIn at hcin
    rw [hviewsW] at hcin
    exact hcin
  have hTCeq : ∀ x, x ≠ v →
      totalViewCount (detachView s w v rgId) x = totalViewCount s x := by
    intro x hx
    have h : flatCount (fun vs => vs)
          (updateA s.dispWindows w (fun vs => vs.filter (fun u => u ≠ v))) x
          + vsW.count x
        = flatCount (fun vs => vs) s.dispWindows x
          + (vsW.filter (fun u => u ≠ v)).count x :=
      flatCount_updateA (fun vs => vs) (fun vs => vs.filter (fun u => u ≠ v)) x hq
    rw [count_filter_ne, if_neg hx] at h
    rw [totalViewCount_eq_flatCount, totalViewCount_eq_flatCount, detachView_disp]
    omega
  have hTCv : totalViewCount (detachView s w v rgId) v = 0 := by
    have h : flatCount (fun vs => vs)
          (updateA s.dispWindows w (fun vs => vs.filter (fun u => u ≠ v))) v
          + vsW.count v
        = flatCount (fun vs => vs) s.dispWindows v
          + (vsW.filter (fun u => u ≠ v)).count v :=
      flatCount_updateA (fun vs => vs) (fun vs => vs.filter (fun u => u ≠ v)) v hq
    rw [count_filter_ne, if_pos rfl] at h
    have htv : totalViewCount s v = 1 := htot
    rw [totalViewCount_eq_flatCount] at htv
    rw [totalViewCount_eq_flatCount, detachView_disp]
    omega
  have hcnt1 : 1 ≤ (cg0.children.map RenderGraphObj.id).count rgId := by
    rw [← hrid]
    exact List.count_pos_iff.mpr (List.mem_map.mpr ⟨r, hr, rfl⟩)
  have hglob : (rgIdList s).count rgId ≤ 1 := List.nodup_iff_count_le_one.mp hndr rgId
  have hchle : (cg0.children.map RenderGraphObj.id).count rgId ≤ (rgIdList s).count rgId := by
    rw [rgIdList_count_eq_flatCount]
    exact count_lookup_le_flat (fun c => c.children.map RenderGraphObj.id) hcgW rgId
  have hRCeq : ∀ x, x ≠ rgId →
      (rgIdList (detachView s w v rgId)).count x = (rgIdList s).count x := by
    intro x hx
    have h : flatCount (fun c => c.children.map RenderGraphObj.id)
          (updateA s.commandGraphByWindow w
            (fun c => { c with children := c.children.filter (fun r => r.id ≠ rgId) })) x
          + (cg0.children.map RenderGraphObj.id).count x
        = flatCount (fun c => c.children.map RenderGraphObj.id) s.commandGraphByWindow x
          + ((cg0.children.filter (fun r => r.id ≠ rgId)).map RenderGraphObj.id).count x :=
      flatCount_updateA (fun c => c.children.map RenderGraphObj.id)
        (fun c => { c with children := c.children.filter (fun r => r.id ≠ rgId) }) x hcgW
    rw [map_id_filter_ne, count_filter_ne, if_neg hx] at h
    rw [rgIdList_count_eq_flatCount, rgIdList_count_eq_flatCount, detachView_cg]
    omega
  have hRCrg : (rgIdList (detachView s w v rgId)).count rgId = 0 := by
    have h : flatCount (fun c => c.children.map RenderGraphObj.id)
          (updateA s.commandGraphByWindow w
            (fun c => { c with children := c.children.filter (fun r => r.id ≠ rgId) })) rgId
          + (cg0.children.map RenderGraphObj.id).count rgId
        = flatCount (fun c => c.children.map RenderGraphObj.id) s.commandGraphByWindow rgId
          + ((cg0.children.filter (fun r => r.id ≠ rgId)).map RenderGraphObj.id).count rgId :=
      flatCount_updateA (fun c => c.children.map RenderGraphObj.id)
        (fun c => { c with children := c.children.filter (fun r => r.id ≠ rgId) }) rgId hcgW
    rw [map_id_filter_ne, count_filter_ne, if_pos rfl] at h
    rw [rgIdList_count_eq_flatCount, detachView_cg]
    rw [rgIdList_count_eq_flatCount] at hglob hchle
    omega
  have hidnd : (cg0.children.map RenderGraphObj.id).Nodup :=
    hndr.sublist (sublist_flatten_of_mem
      (fun c => c.children.map RenderGraphObj.id) (lookupA_mem hcgW))
  refine ⟨⟨?_, ?_⟩, ?_, ?_, ?_, ?_, ?_, ?_, ?_, ?_, ?_, ?_, ?_⟩
  · -- display-configuration views still link to view-bearing render graphs
    intro w2 hw2 u hu
    have hw2o : w2 ∈ s.dispWindows.map Prod.fst := by
      rw [detachView_disp, keys_updateA] at hw2
      exact hw2
    by_cases hww : w2 = w
    · rw [hww] at hu ⊢
      rw [hLDw] at hu
      obtain ⟨huold, hunv⟩ := List.mem_filter.mp hu
      have hune : u ≠ v := by simpa using hunv
      have huv2 : u ∈ viewsOf s w := by rw [hviewsW]; exact huold
      obtain ⟨cg1, hcg1, r1, hr1, hvd1, hview1⟩ := hc1 w hwkey u huv2
      rw [hcgW] at hcg1
      simp only [Option.toList_some, List.mem_singleton] at hcg1
      rw [hcg1] at hr1
      have hr1ne : r1.id ≠ rgId := by
        intro he
        have heq : r1 = r :=
          List.inj_on_of_nodup_map hidnd hr1 hr (by rw [he, hrid])
        rw [heq, hview] at hview1
        exact hune (Option.some_inj.mp hview1).symm
      simp only [hLCw, Option.toList_some, List.mem_singleton]
      refine ⟨_, rfl, r1, List.mem_filter.mpr ⟨hr1, by simpa using hr1ne⟩, ?_, hview1⟩
      rw [hLV u hune]
      exact hvd1
    · rw [hLDne w2 hww] at hu
      have hune : u ≠ v := by
        intro he
        have hu2 : v ∈ viewsOf s w2 := he ▸ hu
        have hcw2 : 0 < countIn s w2 v := List.count_pos_iff.mpr hu2
        have hpair := countIn_pair_le_total hndd (fun he2 : w = w2 => hww he2.symm) v
        omega
      obtain ⟨cg1, hcg1, r1, hr1, hvd1, hview1⟩ := hc1 w2 hw2o u hu
      refine ⟨cg1, ?_, r1, hr1, ?_, hview1⟩
      · rw [hLC w2 hww]; exact hcg1
      · rw [hLV u hune]; exact hvd1
  · -- remaining view-bearing render graphs still correspond to one entry
    intro w2 hw2 cg2 hcg2 r2 hr2 u hu
    have hw2o : w2 ∈ s.commandGraphByWindow.map Prod.fst := by
      rw [detachView_cg, keys_updateA] at hw2
      exact hw2
    by_cases hww : w2 = w
    · rw [hww] at hcg2 ⊢
      rw [hLCw] at hcg2
      simp only [Option.toList_some, List.mem_singleton] at hcg2
      rw [hcg2] at hr2
      obtain ⟨hr2mem, hr2b⟩ := List.mem_filter.mp hr2
      have hr2ne : r2.id ≠ rgId := by simpa using hr2b
      obtain ⟨hvd1, htot1, hcin1⟩ :=
        hc2 w hcgkey cg0 (by rw [hcgW]; simp) r2 hr2mem u hu
      have hune : u ≠ v := by
        intro he
        rw [he, hvdv] at hvd1
        exact hr2ne (Option.some_inj.mp hvd1).symm
      refine ⟨?_, ?_, ?_⟩
      · rw [hLV u hune]; exact hvd1
      · rw [hTCeq u hune]; exact htot1
      · unfold countIn
        rw [hLDw, count_filter_ne, if_neg hune]
        unfold countIn at hcin1
        rw [hviewsW] at hcin1
        exact hcin1
    · rw [hLC w2 hww] at hcg2
      have hcg2lk : lookupA s.commandGraphByWindow w2 = some cg2 := by
        cases hq2 : lookupA s.commandGraphByWindow w2 with
        | none => rw [hq2] at hcg2; simp at hcg2
        | some c =>
          rw [hq2] at hcg2
          simp only [Option.toList_some, List.mem_singleton] at hcg2
          rw [hcg2]
      obtain ⟨hvd1, htot1, hcin1⟩ := hc2 w2 hw2o cg2 hcg2 r2 hr2 u hu
      have hune : u ≠ v := by
        intro he
        rw [he, hvdv] at hvd1
        have hr2id : r2.id = rgId := (Option.some_inj.mp hvd1).symm
        have c2 : 1 ≤ (cg2.children.map RenderGraphObj.id).count rgId := by
          rw [← hr2id]
          exact List.count_pos_iff.mpr (List.mem_map.mpr ⟨r2, hr2, rfl⟩)
        have hp := count_pair_le_flat (fun c => c.children.map RenderGraphObj.id) hndc
          (fun he2 : w = w2 => hww he2.symm) hcgW hcg2lk rgId
        rw [← rgIdList_count_eq_flatCount] at hp
        omega
      refine ⟨?_, ?_, ?_⟩
      · rw [hLV u hune]; exact hvd1
      · rw [hTCeq u hune]; exact htot1
      · unfold countIn
        rw [hLDne w2 hww]
        unfold countIn at hcin1
        exact hcin1
  · rw [detachView_disp, keys_updateA]
    exact hndd
  · rw [detachView_cg, keys_updateA]
    exact hndc
  · rw [List.nodup_iff_count_le_one]
    intro u
    show totalViewCount (detachView s w v rgId) u ≤ 1
    by_cases huv : u = v
    · rw [huv, hTCv]
      omega
    · rw [hTCeq u huv]
      exact List.nodup_iff_count_le_one.mp hnda u
  · rw [List.nodup_iff_count_le_one]
    intro x
    show (rgIdList (detachView s w v rgId)).count x ≤ 1
    by_cases hx : x = rgId
    · rw [hx, hRCrg]
      omega
    · rw [hRCeq x hx]
      exact List.nodup_iff_count_le_one.mp hndr x
  · rw [detachView_vd]
    exact (keys_eraseA_sublist _ _).nodup hndv
  · intro p hp
    rw [detachView_vd] at hp
    obtain ⟨hpo, hpne⟩ := mem_eraseA_nodup hndv hp
    rw [mem_allDispViews_iff, hTCeq p.1 hpne]
    exact (mem_allDispViews_iff s p.1).mp (hdom p hpo)
  · intro w2 hw2
    rw [detachView_nextId]
    rw [detachView_disp, keys_updateA] at hw2
    exact hbd w2 hw2
  · intro u hu
    rw [detachView_nextId]
    rw [mem_allDispViews_iff] at hu
    by_cases huv : u = v
    · rw [huv, hTCv] at hu
      omega
    · rw [hTCeq u huv] at hu
      exact hbv u ((mem_allDispViews_iff s u).mpr hu)
  · intro w2 hw2
    rw [detachView_nextId]
    rw [detachView_cg, keys_updateA] at hw2
    exact hbcw w2 hw2
  · intro x hx
    rw [detachView_nextId]
    have hpos : 0 < (rgIdList (detachView s w v rgId)).count x := List.count_pos_iff.mpr hx
    by_cases hxr : x = rgId
    · rw [hxr, hRCrg] at hpos
      omega
    · rw [hRCeq x hxr] at hpos
      exact hbrg x (List.count_pos_iff.mp hpos)
  · intro p hp
    rw [detachView_nextId]
    rw [detachView_vd] at hp
    exact hbvd p (mem_eraseA_nodup hndv hp).1

theorem lookupA_eraseA_none {α : Type} {l : List (Nat × α)} (k : Nat) {k' : Nat}
    (h : lookupA l k' = none) : lookupA (eraseA l k) k' = none := by
  apply lookupA_eq_none_of
  intro p hp he
  exact not_mem_keys_of_lookupA_none h (he ▸ List.mem_map.mpr ⟨p, eraseA_subset p hp, rfl⟩)

theorem totalViewCount_detachView_le (s : App) (w v rgId x : Nat) :
    totalViewCount (detachView s w v rgId) x ≤ totalViewCount s x := by
  rw [totalViewCount_eq_flatCount, totalViewCount_eq_flatCount, detachView_disp]
  cases hq : lookupA s.dispWindows w with
  | none => rw [updateA_eq_of_none _ hq]
  | some vs =>
    have h : flatCount (fun vs => vs)
          (updateA s.dispWindows w (fun vs => vs.filter (fun u => u ≠ v))) x
          + vs.count x
        = flatCount (fun vs => vs) s.dispWindows x
          + (vs.filter (fun u => u ≠ v)).count x :=
      flatCount_updateA (fun vs => vs) (fun vs => vs.filter (fun u => u ≠ v)) x hq
    rw [count_filter_ne] at h
    split_ifs at h <;> omega

/-! ## Congruence: operations touching only untracked fields -/

theorem consistent_congr {s t : App}
    (hd : t.dispWindows = s.dispWindows)
    (hc : t.commandGraphByWindow = s.commandGraphByWindow)
    (hv : t.viewData = s.viewData) (h : Consistent s) : Consistent t := by
  have hvo : viewsOf t = viewsOf s := by
    funext w
    unfold viewsOf
    rw [hd]
  have hto : totalViewCount t = totalViewCount s := by
    funext x
    unfold totalViewCount allDispViews
    rw [hd]
  have hci : countIn t = countIn s := by
    funext w x
    unfold countIn
    rw [hvo]
  unfold Consistent
  rw [hd, hc, hv, hvo, hto, hci]
  exact h

theorem invCore_congr {s t : App}
    (hd : t.dispWindows = s.dispWindows)
    (hc : t.commandGraphByWindow = s.commandGraphByWindow)
    (hv : t.viewData = s.viewData)
    (hn : s.nextId ≤ t.nextId) (h : InvCore s) : InvCore t := by
  obtain ⟨hcons, hndd, hndc, hnda, hndr, hndv, hdom, hbd, hbv, hbcw, hbrg, hbvd⟩ := h
  have hav : allDispViews t = allDispViews s := by unfold allDispViews; rw [hd]
  have hrg : rgIdList t = rgIdList s := by unfold rgIdList; rw [hc]
  refine ⟨consistent_congr hd hc hv hcons, ?_, ?_, ?_, ?_, ?_, ?_, ?_, ?_, ?_, ?_, ?_⟩
  · rw [hd]; exact hndd
  · rw [hc]; exact hndc
  · rw [hav]; exact hnda
  · rw [hrg]; exact hndr
  · rw [hv]; exact hndv
  · intro p hp
    rw [hav]
    rw [hv] at hp
    exact hdom p hp
  · intro w hw
    rw [hd] at hw
    exact lt_of_lt_of_le (hbd w hw) hn
  · intro x hx
    rw [hav] at hx
    exact lt_of_lt_of_le (hbv x hx) hn
  · intro w hw
    rw [hc] at hw
    exact lt_of_lt_of_le (hbcw w hw) hn
  · intro x hx
    rw [hrg] at hx
    exact lt_of_lt_of_le (hbrg x hx) hn
  · intro p hp
    rw [hv] at hp
    exact lt_of_lt_of_le (hbvd p hp) hn

theorem opsOk_congr {s t : App} {ops : List PendingOp}
    (hd : t.dispWindows = s.dispWindows)
    (hv : t.viewData = s.viewData)
    (hn : s.nextId ≤ t.nextId) (h : OpsOk s ops) : OpsOk t ops := by
  obtain ⟨hnd, hcond⟩ := h
  have hav : allDispViews t = allDispViews s := by unfold allDispViews; rw [hd]
  refine ⟨hnd, ?_⟩
  intro vid hvid
  obtain ⟨h1, h2, h3⟩ := hcond vid hvid
  refine ⟨lt_of_lt_of_le h1 hn, ?_, ?_⟩
  · rw [hav]; exact h2
  · rw [hv]; exact h3

theorem opsOk_nil (s : App) : OpsOk s [] := by
  refine ⟨List.nodup_nil, ?_⟩
  intro vid hvid
  simp [pendingViews] at hvid

theorem pendingViews_append (a b : List PendingOp) :
    pendingViews (a ++ b) = pendingViews a ++ pendingViews b := by
  unfold pendingViews
  rw [List.filterMap_append]

theorem opsOk_attachView {s : App} {w v : Nat} {ops : List PendingOp}
    (h : OpsOk s ops) (hv : v ∉ pendingViews ops) : OpsOk (attachView s w v) ops := by
  obtain ⟨hnd, hcond⟩ := h
  refine ⟨hnd, ?_⟩
  intro vid hvid
  obtain ⟨h1, h2, h3⟩ := hcond vid hvid
  have hne : vid ≠ v := fun he => hv (he ▸ hvid)
  refine ⟨?_, ?_, ?_⟩
  · rw [attachView_nextId]; omega
  · rw [mem_allDispViews_iff, totalViewCount_attachView, count_single_ne hne]
    rw [mem_allDispViews_iff] at h2
    omega
  · rw [attachView_vd, lookupA_setA_ne _ _ hne]
    exact h3

theorem opsOk_detachView {s : App} (w v rgId : Nat) {ops : List PendingOp}
    (h : OpsOk s ops) : OpsOk (detachView s w v rgId) ops := by
  obtain ⟨hnd, hcond⟩ := h
  refine ⟨hnd, ?_⟩
  intro vid hvid
  obtain ⟨h1, h2, h3⟩ := hcond vid hvid
  refine ⟨?_, ?_, ?_⟩
  · rw [detachView_nextId]; exact h1
  · rw [mem_allDispViews_iff]
    have hle := totalViewCount_detachView_le s w v rgId vid
    rw [mem_allDispViews_iff] at h2
    omega
  · rw [detachView_vd]
    exact lookupA_eraseA_none v h3

theorem opsOk_removeViewCore {s : App} (v : Nat) {ops : List PendingOp}
    (h : OpsOk s ops) : OpsOk (removeViewCore s v) ops := by
  unfold removeViewCore
  split
  · exact h
  next w hgw =>
    split
    · exact h
    next cgW hcgW =>
      split
      · exact h
      next rgId hvdv => exact opsOk_detachView w v rgId h

/-! ## Registration of a fresh window and command graph -/

theorem invCore_registerWindow {s : App} (h : InvCore s) :
    InvCore { s with
      nextId := s.nextId + 2
      commandGraphByWindow :=
        s.commandGraphByWindow ++ [(s.nextId, ⟨s.nextId + 1, []⟩)] } := by
  obtain ⟨⟨hc1, hc2⟩, hndd, hndc, hnda, hndr, hndv, hdom, hbd, hbv, hbcw, hbrg, hbvd⟩ := h
  have hfresh : lookupA s.commandGraphByWindow s.nextId = none := by
    apply lookupA_eq_none_of
    intro p hp he
    have hlt := hbcw p.1 (List.mem_map.mpr ⟨p, hp, rfl⟩)
    omega
  have hLC : ∀ w2, w2 ≠ s.nextId →
      lookupA (s.commandGraphByWindow
          ++ [(s.nextId, (⟨s.nextId + 1, []⟩ : CommandGraphObj))]) w2
        = lookupA s.commandGraphByWindow w2 := by
    intro w2 hww
    cases hq : lookupA s.commandGraphByWindow w2 with
    | some c => exact lookupA_append_some _ hq
    | none =>
      rw [lookupA_append_none _ hq]
      simp [lookupA, Ne.symm hww]
  have hLCn : lookupA (s.commandGraphByWindow
        ++ [(s.nextId, (⟨s.nextId + 1, []⟩ : CommandGraphObj))]) s.nextId
      = some ⟨s.nextId + 1, []⟩ := by
    rw [lookupA_append_none _ hfresh]
    simp [lookupA]
  have hrg : rgIdList { s with
      nextId := s.nextId + 2
      commandGraphByWindow :=
        s.commandGraphByWindow ++ [(s.nextId, ⟨s.nextId + 1, []⟩)] } = rgIdList s := by
    unfold rgIdList
    simp
  refine ⟨⟨?_, ?_⟩, hndd, ?_, hnda, ?_, hndv, hdom, ?_, ?_, ?_, ?_, ?_⟩
  · intro w2 hw2 u hu
    obtain ⟨cg1, hcg1, r1, hr1, hvd1, hview1⟩ := hc1 w2 hw2 u hu
    have hw2ne : w2 ≠ s.nextId := by
      have := hbd w2 hw2
      omega
    refine ⟨cg1, ?_, r1, hr1, hvd1, hview1⟩
    show cg1 ∈ (lookupA (s.commandGraphByWindow
      ++ [(s.nextId, ⟨s.nextId + 1, []⟩)]) w2).toList
    rw [hLC w2 hw2ne]
    exact hcg1
  · intro w2 hw2 cg2 hcg2 r2 hr2 u hu
    have hcg2b : cg2 ∈ (lookupA (s.commandGraphByWindow
        ++ [(s.nextId, (⟨s.nextId + 1, []⟩ : CommandGraphObj))]) w2).toList := hcg2
    have hw2b : w2 ∈ (s.commandGraphByWindow
        ++ [(s.nextId, (⟨s.nextId + 1, []⟩ : CommandGraphObj))]).map Prod.fst := hw2
    simp only [List.map_append, List.map_cons, List.map_nil, List.mem_append,
      List.mem_cons, List.not_mem_nil, or_false] at hw2b
    rcases hw2b with hw2o | hw2n
    · have hw2ne : w2 ≠ s.nextId := by
        have := hbcw w2 hw2o
        omega
      rw [hLC w2 hw2ne] at hcg2b
      exact hc2 w2 hw2o cg2 hcg2b r2 hr2 u hu
    · rw [hw2n, hLCn] at hcg2b
      simp only [Option.toList_some, List.mem_singleton] at hcg2b
      rw [hcg2b] at hr2
      simp at hr2
  · simp only [List.map_append, List.map_cons, List.map_nil]
    rw [List.nodup_append]
    refine ⟨hndc, List.nodup_singleton _, ?_⟩
    intro x hx hx2
    simp only [List.mem_singleton] at hx2
    have := hbcw x hx
    omega
  · rw [hrg]
    exact hndr
  · intro w2 hw2
    show w2 < s.nextId + 2
    have := hbd w2 hw2
    omega
  · intro u hu
    show u < s.nextId + 2
    have := hbv u hu
    omega
  · intro w2 hw2
    show w2 < s.nextId + 2
    have hw2b : w2 ∈ (s.commandGraphByWindow
        ++ [(s.nextId, (⟨s.nextId + 1, []⟩ : CommandGraphObj))]).map Prod.fst := hw2
    simp only [List.map_append, List.map_cons, List.map_nil, List.mem_append,
      List.mem_cons, List.not_mem_nil, or_false] at hw2b
    rcases hw2b with hw2o | hw2n
    · have := hbcw w2 hw2o
      omega
    · omega
  · intro x hx
    show x < s.nextId + 2
    rw [hrg] at hx
    have := hbrg x hx
    omega
  · intro p hp
    show p.1 < s.nextId + 2
    have := hbvd p hp
    omega

/-- The removal helper preserves the structural invariant (the soft-assert
branches change nothing, and a successful removal detaches cleanly). -/
theorem invCore_removeViewCore {s : App} (v : Nat) (hinv : InvCore s) :
    InvCore (removeViewCore s v) := by
  unfold removeViewCore
  split
  · exact hinv
  next w hgw =>
    split
    · exact hinv
    next cgW hcgW =>
      split
      · exact hinv
      next rgId hvdv =>
        exact invCore_detachView hinv (getWindow_spec hinv.2.1 hgw).2 hvdv

/-! ## Field behaviour of the helper operations -/

theorem addRootIfEmpty_disp (s : App) (u : Nat) :
    (addRootIfEmpty s u).dispWindows = s.dispWindows := by
  unfold addRootIfEmpty
  split <;> rfl

theorem addRootIfEmpty_cg (s : App) (u : Nat) :
    (addRootIfEmpty s u).commandGraphByWindow = s.commandGraphByWindow := by
  unfold addRootIfEmpty
  split <;> rfl

theorem addRootIfEmpty_vd (s : App) (u : Nat) :
    (addRootIfEmpty s u).viewData = s.viewData := by
  unfold addRootIfEmpty
  split <;> rfl

theorem addRootIfEmpty_nextId (s : App) (u : Nat) :
    (addRootIfEmpty s u).nextId = s.nextId := by
  unfold addRootIfEmpty
  split <;> rfl

theorem addRootIfEmpty_pending (s : App) (u : Nat) :
    (addRootIfEmpty s u).pending = s.pending := by
  unfold addRootIfEmpty
  split <;> rfl

theorem addRootIfEmpty_realized (s : App) (u : Nat) :
    (addRootIfEmpty s u).realized = s.realized := by
  unfold addRootIfEmpty
  split <;> rfl

theorem addRootIfEmpty_handlers (s : App) (u : Nat) :
    (addRootIfEmpty s u).handlers = s.handlers := by
  unfold addRootIfEmpty
  split <;> rfl

theorem addRootIfEmpty_futures (s : App) (u : Nat) :
    (addRootIfEmpty s u).futures = s.futures := by
  unfold addRootIfEmpty
  split <;> rfl

theorem addViewPre_pending (s : App) (w : Nat) (v : ViewArg) (onc : Bool) :
    (addViewPre s w v onc).1.pending = s.pending := by
  unfold addViewPre
  split
  · simp [resolveFuture, newFuture, attachView, addRootIfEmpty_pending]
  · simp [resolveFuture, newFuture]

theorem addViewPre_realized (s : App) (w : Nat) (v : ViewArg) (onc : Bool) :
    (addViewPre s w v onc).1.realized = s.realized := by
  unfold addViewPre
  split
  · simp [resolveFuture, newFuture, attachView, addRootIfEmpty_realized]
  · simp [resolveFuture, newFuture]

theorem addViewPre_handlers (s : App) (w : Nat) (v : ViewArg) (onc : Bool) :
    (addViewPre s w v onc).1.handlers = s.handlers := by
  unfold addViewPre
  split
  · simp [resolveFuture, newFuture, attachView, addRootIfEmpty_handlers]
  · simp [resolveFuture, newFuture]

theorem addViewRealizedCore_pending (s : App) (w : Nat) (v : ViewArg) (onc : Bool)
    (fid : Option Nat) : (addViewRealizedCore s w v onc fid).1.pending = s.pending := by
  unfold addViewRealizedCore
  cases hq : getCommandGraph (addRootIfEmpty s v.id) w <;>
    cases fid <;>
      simp [hq, resolveFutureOpt, resolveFuture, addManipulator, attachView,
        addRootIfEmpty_pending]

theorem addViewRealizedCore_realized (s : App) (w : Nat) (v : ViewArg) (onc : Bool)
    (fid : Option Nat) : (addViewRealizedCore s w v onc fid).1.realized = s.realized := by
  unfold addViewRealizedCore
  cases hq : getCommandGraph (addRootIfEmpty s v.id) w <;>
    cases fid <;>
      simp [hq, resolveFutureOpt, resolveFuture, addManipulator, attachView,
        addRootIfEmpty_realized]

theorem addView_pre_eq {s : App} {w : Nat} {v : ViewArg} {onc : Bool}
    (hcam : v.hasCamera = true) (hreal : s.realized = false) :
    addView s (some w) (some v) onc = addViewPre s w v onc := by
  simp [addView, hcam, hreal]

theorem addWindowAttach_pending (s : App) :
    (addWindowAttach s).pending = s.pending := by
  unfold addWindowAttach
  split
  · rw [addViewRealizedCore_pending]
    rfl
  next hre =>
    rw [addView_pre_eq rfl (by simpa using hre), addViewPre_pending]
    rfl

theorem addWindowAttach_realized (s : App) :
    (addWindowAttach s).realized = s.realized := by
  unfold addWindowAttach
  split
  · rw [addViewRealizedCore_realized]
    rfl
  next hre =>
    rw [addView_pre_eq rfl (by simpa using hre), addViewPre_realized]
    rfl

theorem markDirtyIfRealized_pending (s : App) :
    (markDirtyIfRealized s).pending = s.pending := by
  unfold markDirtyIfRealized
  split <;> rfl

theorem markDirtyIfRealized_realized (s : App) :
    (markDirtyIfRealized s).realized = s.realized := by
  unfold markDirtyIfRealized
  split <;> rfl

theorem addWindowCore_pending (s : App) (fid : Nat) :
    (addWindowCore s fid).pending = s.pending := by
  unfold addWindowCore
  rw [markDirtyIfRealized_pending]
  show (addWindowAttach s).pending = s.pending
  exact addWindowAttach_pending s

theorem addWindowCore_realized (s : App) (fid : Nat) :
    (addWindowCore s fid).realized = s.realized := by
  unfold addWindowCore
  rw [markDirtyIfRealized_realized]
  show (addWindowAttach s).realized = s.realized
  exact addWindowAttach_realized s

theorem removeViewCore_handlers (s : App) (v : Nat) :
    (removeViewCore s v).handlers = s.handlers := by
  unfold removeViewCore
  split
  · rfl
  next w hgw =>
    split
    · rfl
    next cgW hcgW =>
      split
      · rfl
      next rgId hvdv => rfl

theorem removeViewCore_pending (s : App) (v : Nat) :
    (removeViewCore s v).pending = s.pending := by
  unfold removeViewCore
  split
  · rfl
  next w hgw =>
    split
    · rfl
    next cgW hcgW =>
      split
      · rfl
      next rgId hvdv => rfl

theorem removeViewCore_realized (s : App) (v : Nat) :
    (removeViewCore s v).realized = s.realized := by
  unfold removeViewCore
  split
  · rfl
  next w hgw =>
    split
    · rfl
    next cgW hcgW =>
      split
      · rfl
      next rgId hvdv => rfl

theorem removeViewCore_futures (s : App) (v : Nat) :
    (removeViewCore s v).futures = s.futures := by
  unfold removeViewCore
  split
  · rfl
  next w hgw =>
    split
    · rfl
    next cgW hcgW =>
      split
      · rfl
      next rgId hvdv => rfl

/-! ## Invariant preservation through the attach and window operations -/

theorem allDispViews_addRootIfEmpty (s : App) (u : Nat) :
    allDispViews (addRootIfEmpty s u) = allDispViews s := by
  unfold allDispViews
  rw [addRootIfEmpty_disp]

theorem invCore_newFuture_resolve {s : App} (f val : Nat) (h : InvCore s) :
    InvCore (resolveFuture (newFuture s).1 f val) :=
  @invCore_congr s (resolveFuture (newFuture s).1 f val) rfl rfl rfl
    (Nat.le_succ s.nextId) h

theorem opsOk_newFuture_resolve {s : App} {ops : List PendingOp} (f val : Nat)
    (h : OpsOk s ops) : OpsOk (resolveFuture (newFuture s).1 f val) ops :=
  @opsOk_congr s (resolveFuture (newFuture s).1 f val) ops rfl rfl
    (Nat.le_succ s.nextId) h

theorem invCore_manip_resolveOpt {s : App} (w u : Nat) (fid : Option Nat) (val : Nat)
    (h : InvCore s) : InvCore (resolveFutureOpt (addManipulator s w u) fid val) := by
  cases fid with
  | none =>
    exact @invCore_congr s (resolveFutureOpt (addManipulator s w u) none val)
      rfl rfl rfl (Nat.le_succ s.nextId) h
  | some f =>
    exact @invCore_congr s (resolveFutureOpt (addManipulator s w u) (some f) val)
      rfl rfl rfl (Nat.le_succ s.nextId) h

theorem opsOk_manip_resolveOpt {s : App} {ops : List PendingOp} (w u : Nat)
    (fid : Option Nat) (val : Nat)
    (h : OpsOk s ops) : OpsOk (resolveFutureOpt (addManipulator s w u) fid val) ops := by
  cases fid with
  | none =>
    exact @opsOk_congr s (resolveFutureOpt (addManipulator s w u) none val)
      ops rfl rfl (Nat.le_succ s.nextId) h
  | some f =>
    exact @opsOk_congr s (resolveFutureOpt (addManipulator s w u) (some f) val)
      ops rfl rfl (Nat.le_succ s.nextId) h

theorem invCore_resolveOpt {s : App} (fid : Option Nat) (val : Nat)
    (h : InvCore s) : InvCore (resolveFutureOpt s fid val) := by
  cases fid with
  | none => exact h
  | some f =>
    exact @invCore_congr s (resolveFutureOpt s (some f) val)
      rfl rfl rfl (le_refl s.nextId) h

theorem opsOk_resolveOpt {s : App} {ops : List PendingOp} (fid : Option Nat) (val : Nat)
    (h : OpsOk s ops) : OpsOk (resolveFutureOpt s fid val) ops := by
  cases fid with
  | none => exact h
  | some f =>
    exact @opsOk_congr s (resolveFutureOpt s (some f) val)
      ops rfl rfl (le_refl s.nextId) h

theorem invCore_opsOk_addViewPre {s : App} {w : Nat} {v : ViewArg} {onc : Bool}
    {ops : List PendingOp}
    (hinv : InvCore s) (hops : OpsOk s ops)
    (hlt : v.id < s.nextId) (hnat : v.id ∉ allDispViews s)
    (hnvd : lookupA s.viewData v.id = none) (hnop : v.id ∉ pendingViews ops) :
    InvCore (addViewPre s w v onc).1 ∧ OpsOk (addViewPre s w v onc).1 ops := by
  unfold addViewPre
  split
  next cg hcg =>
    have h1 : InvCore (addRootIfEmpty s v.id) :=
      invCore_congr (addRootIfEmpty_disp s v.id) (addRootIfEmpty_cg s v.id)
        (addRootIfEmpty_vd s v.id) (addRootIfEmpty_nextId s v.id).ge hinv
    have ho1 : OpsOk (addRootIfEmpty s v.id) ops :=
      opsOk_congr (addRootIfEmpty_disp s v.id) (addRootIfEmpty_vd s v.id)
        (addRootIfEmpty_nextId s v.id).ge hops
    have hcg1 : lookupA (addRootIfEmpty s v.id).commandGraphByWindow w = some cg := by
      rw [addRootIfEmpty_cg]
      exact hcg
    have hnat1 : v.id ∉ allDispViews (addRootIfEmpty s v.id) := by
      rw [allDispViews_addRootIfEmpty]
      exact hnat
    have hnvd1 : lookupA (addRootIfEmpty s v.id).viewData v.id = none := by
      rw [addRootIfEmpty_vd]
      exact hnvd
    have hlt1 : v.id < (addRootIfEmpty s v.id).nextId := by
      rw [addRootIfEmpty_nextId]
      exact hlt
    have h2 : InvCore (attachView (addRootIfEmpty s v.id) w v.id) :=
      invCore_attachView h1 hcg1 hnat1 hnvd1 hlt1
    have ho2 : OpsOk (attachView (addRootIfEmpty s v.id) w v.id) ops :=
      opsOk_attachView ho1 hnop
    exact ⟨invCore_newFuture_resolve _ _ h2, opsOk_newFuture_resolve _ _ ho2⟩
  next hcg =>
    exact ⟨invCore_newFuture_resolve _ _ hinv, opsOk_newFuture_resolve _ _ hops⟩

theorem invCore_opsOk_addViewRealized {s : App} {w : Nat} {v : ViewArg} {onc : Bool}
    {fid : Option Nat} {ops : List PendingOp}
    (hinv : InvCore s) (hops : OpsOk s ops)
    (hlt : v.id < s.nextId) (hnat : v.id ∉ allDispViews s)
    (hnvd : lookupA s.viewData v.id = none) (hnop : v.id ∉ pendingViews ops) :
    InvCore (addViewRealizedCore s w v onc fid).1
      ∧ OpsOk (addViewRealizedCore s w v onc fid).1 ops := by
  have h1 : InvCore (addRootIfEmpty s v.id) :=
    invCore_congr (addRootIfEmpty_disp s v.id) (addRootIfEmpty_cg s v.id)
      (addRootIfEmpty_vd s v.id) (addRootIfEmpty_nextId s v.id).ge hinv
  have ho1 : OpsOk (addRootIfEmpty s v.id) ops :=
    opsOk_congr (addRootIfEmpty_disp s v.id) (addRootIfEmpty_vd s v.id)
      (addRootIfEmpty_nextId s v.id).ge hops
  unfold addViewRealizedCore
  cases hq : getCommandGraph (addRootIfEmpty s v.id) w with
  | some cg =>
    have hnat1 : v.id ∉ allDispViews (addRootIfEmpty s v.id) := by
      rw [allDispViews_addRootIfEmpty]
      exact hnat
    have hnvd1 : lookupA (addRootIfEmpty s v.id).viewData v.id = none := by
      rw [addRootIfEmpty_vd]
      exact hnvd
    have hlt1 : v.id < (addRootIfEmpty s v.id).nextId := by
      rw [addRootIfEmpty_nextId]
      exact hlt
    have h2 : InvCore (attachView (addRootIfEmpty s v.id) w v.id) :=
      invCore_attachView h1 hq hnat1 hnvd1 hlt1
    have ho2 : OpsOk (attachView (addRootIfEmpty s v.id) w v.id) ops :=
      opsOk_attachView ho1 hnop
    have h3 : InvCore (resolveFutureOpt
        (addManipulator (attachView (addRootIfEmpty s v.id) w v.id) w v.id) fid v.id) :=
      invCore_manip_resolveOpt _ _ fid _ h2
    have ho3 : OpsOk (resolveFutureOpt
        (addManipulator (attachView (addRootIfEmpty s v.id) w v.id) w v.id) fid v.id) ops :=
      opsOk_manip_resolveOpt _ _ fid _ ho2
    simp only [hq]
    exact ⟨h3, ho3⟩
  | none =>
    have h3 : InvCore (resolveFutureOpt (addRootIfEmpty s v.id) fid v.id) :=
      invCore_resolveOpt fid _ h1
    have ho3 : OpsOk (resolveFutureOpt (addRootIfEmpty s v.id) fid v.id) ops :=
      opsOk_resolveOpt fid _ ho1
    simp only [hq]
    exact ⟨h3, ho3⟩

theorem invCore_opsOk_markDirty {s : App} {ops : List PendingOp}
    (hinv : InvCore s) (hops : OpsOk s ops) :
    InvCore (markDirtyIfRealized s) ∧ OpsOk (markDirtyIfRealized s) ops := by
  unfold markDirtyIfRealized
  by_cases hre : s.realized = true
  · rw [if_pos hre]
    exact ⟨@invCore_congr s { s with dirty := true } rfl rfl rfl le_rfl hinv,
      @opsOk_congr s { s with dirty := true } ops rfl rfl le_rfl hops⟩
  · rw [if_neg hre]
    exact ⟨hinv, hops⟩

theorem invCore_opsOk_addWindowAttach {s : App} {ops : List PendingOp}
    (hinv : InvCore s) (hops : OpsOk s ops) :
    InvCore (addWindowAttach s) ∧ OpsOk (addWindowAttach s) ops := by
  obtain ⟨hcons, hndd, hndc, hnda, hndr, hndv, hdom, hbd, hbv, hbcw, hbrg, hbvd⟩ := hinv
  have h1 : InvCore (registerWindow s) :=
    invCore_registerWindow
      ⟨hcons, hndd, hndc, hnda, hndr, hndv, hdom, hbd, hbv, hbcw, hbrg, hbvd⟩
  have ho1 : OpsOk (registerWindow s) ops :=
    @opsOk_congr s (registerWindow s) ops rfl rfl (Nat.le_add_right s.nextId 2) hops
  have h2 : InvCore (createDefaultView (registerWindow s)).1 :=
    @invCore_congr (registerWindow s) (createDefaultView (registerWindow s)).1
      rfl rfl rfl (Nat.le_succ (registerWindow s).nextId) h1
  have ho2 : OpsOk (createDefaultView (registerWindow s)).1 ops :=
    @opsOk_congr (registerWindow s) (createDefaultView (registerWindow s)).1 ops
      rfl rfl (Nat.le_succ (registerWindow s).nextId) ho1
  have hlt : ((createDefaultView (registerWindow s)).2).id
      < ((createDefaultView (registerWindow s)).1).nextId := by
    show s.nextId + 2 < s.nextId + 3
    omega
  have hnat : ((createDefaultView (registerWindow s)).2).id
      ∉ allDispViews (createDefaultView (registerWindow s)).1 := by
    intro hmem
    have hl : s.nextId + 2 < s.nextId := hbv _ hmem
    omega
  have hnvd : lookupA ((createDefaultView (registerWindow s)).1).viewData
      ((createDefaultView (registerWindow s)).2).id = none := by
    apply lookupA_eq_none_of
    intro p hp he
    have hl : p.1 < s.nextId := hbvd p hp
    have he2 : p.1 = s.nextId + 2 := he
    omega
  have hnop : ((createDefaultView (registerWindow s)).2).id ∉ pendingViews ops := by
    intro hmem
    have hl : s.nextId + 2 < s.nextId := (hops.2 _ hmem).1
    omega
  unfold addWindowAttach
  by_cases hre : s.realized = true
  · rw [if_pos hre]
    exact invCore_opsOk_addViewRealized h2 ho2 hlt hnat hnvd hnop
  · rw [if_neg hre, addView_pre_eq rfl (by simpa using hre)]
    exact invCore_opsOk_addViewPre h2 ho2 hlt hnat hnvd hnop

theorem invCore_opsOk_addWindowCore {s : App} {fid : Nat} {ops : List PendingOp}
    (hinv : InvCore s) (hops : OpsOk s ops) :
    InvCore (addWindowCore s fid) ∧ OpsOk (addWindowCore s fid) ops := by
  obtain ⟨h2, ho2⟩ := invCore_opsOk_addWindowAttach hinv hops
  exact invCore_opsOk_markDirty
    (@invCore_congr (addWindowAttach s)
      (resolveFuture
        (addManipulator (addViewerWindow (enableMTR (addWindowAttach s)) s.nextId)
          s.nextId (registerWindow s).nextId) fid s.nextId)
      rfl rfl rfl (Nat.le_succ (addWindowAttach s).nextId) h2)
    (@opsOk_congr (addWindowAttach s)
      (resolveFuture
        (addManipulator (addViewerWindow (enableMTR (addWindowAttach s)) s.nextId)
          s.nextId (registerWindow s).nextId) fid s.nextId)
      ops rfl rfl (Nat.le_succ (addWindowAttach s).nextId) ho2)

/-! ## The deferred-operation queue at the frame-loop safe point -/

theorem pendingViews_addWindowOp (fid : Nat) (rest : List PendingOp) :
    pendingViews (.addWindowOp fid :: rest) = pendingViews rest := rfl

theorem pendingViews_removeViewOp (v : Nat) (rest : List PendingOp) :
    pendingViews (.removeViewOp v :: rest) = pendingViews rest := rfl

theorem pendingViews_addViewOp (w : Nat) (v : ViewArg) (onc : Bool) (fid : Nat)
    (rest : List PendingOp) :
    pendingViews (.addViewOp w v onc fid :: rest) = v.id :: pendingViews rest := rfl

theorem opsOk_tail {s : App} {op : PendingOp} {rest : List PendingOp}
    (h : OpsOk s (op :: rest)) : OpsOk s rest := by
  obtain ⟨hnd, hcond⟩ := h
  cases op with
  | addWindowOp fid => exact ⟨hnd, hcond⟩
  | removeViewOp v => exact ⟨hnd, hcond⟩
  | addViewOp w v onc fid =>
    rw [pendingViews_addViewOp] at hnd
    refine ⟨(List.nodup_cons.mp hnd).2, ?_⟩
    intro vid hv
    refine hcond vid ?_
    rw [pendingViews_addViewOp]
    exact List.mem_cons_of_mem _ hv

theorem opsOk_head_addView {s : App} {w : Nat} {v : ViewArg} {onc : Bool} {fid : Nat}
    {rest : List PendingOp} (h : OpsOk s (.addViewOp w v onc fid :: rest)) :
    (v.id < s.nextId ∧ v.id ∉ allDispViews s ∧ lookupA s.viewData v.id = none)
      ∧ v.id ∉ pendingViews rest := by
  obtain ⟨hnd, hcond⟩ := h
  rw [pendingViews_addViewOp] at hnd
  refine ⟨hcond v.id ?_, (List.nodup_cons.mp hnd).1⟩
  rw [pendingViews_addViewOp]
  exact List.mem_cons_self _ _

theorem opsOk_append_nonView {s : App} {ops : List PendingOp} {op : PendingOp}
    (h : OpsOk s ops) (hnv : pendingViews [op] = []) : OpsOk s (ops ++ [op]) := by
  obtain ⟨hnd, hcond⟩ := h
  refine ⟨?_, ?_⟩
  · rw [pendingViews_append, hnv, List.append_nil]
    exact hnd
  · intro vid hvid
    rw [pendingViews_append, hnv, List.append_nil] at hvid
    exact hcond vid hvid

theorem opsOk_append_addView {s : App} {ops : List PendingOp} {w : Nat} {v : ViewArg}
    {onc : Bool} {fid : Nat}
    (h : OpsOk s ops) (hlt : v.id < s.nextId) (hnat : v.id ∉ allDispViews s)
    (hnvd : lookupA s.viewData v.id = none) (hnop : v.id ∉ pendingViews ops) :
    OpsOk s (ops ++ [.addViewOp w v onc fid]) := by
  obtain ⟨hnd, hcond⟩ := h
  have hsing : pendingViews [PendingOp.addViewOp w v onc fid] = [v.id] := rfl
  refine ⟨?_, ?_⟩
  · rw [pendingViews_append, hsing]
    refine List.Nodup.append hnd (List.nodup_singleton _) ?_
    intro x hx hy
    rw [List.mem_singleton] at hy
    subst hy
    exact hnop hx
  · intro vid hvid
    rw [pendingViews_append, hsing] at hvid
    rcases List.mem_append.mp hvid with hv2 | hv2
    · exact hcond vid hv2
    · rw [List.mem_singleton] at hv2
      subst hv2
      exact ⟨hlt, hnat, hnvd⟩

theorem invCore_opsOk_runPendingOp {s : App} {op : PendingOp} {rest : List PendingOp}
    (hinv : InvCore s) (hops : OpsOk s (op :: rest)) :
    InvCore (runPendingOp s op) ∧ OpsOk (runPendingOp s op) rest := by
  cases op with
  | addWindowOp fid =>
    exact invCore_opsOk_addWindowCore hinv (opsOk_tail hops)
  | addViewOp w v onc fid =>
    obtain ⟨⟨h1, h2, h3⟩, h4⟩ := opsOk_head_addView hops
    exact invCore_opsOk_addViewRealized hinv (opsOk_tail hops) h1 h2 h3 h4
  | removeViewOp v =>
    exact ⟨invCore_removeViewCore v hinv, opsOk_removeViewCore v (opsOk_tail hops)⟩

theorem invCore_runPending : ∀ (ops : List PendingOp) (s : App),
    InvCore s → OpsOk s ops → InvCore (runPending s ops) := by
  intro ops
  induction ops with
  | nil =>
    intro s hinv _
    exact hinv
  | cons op rest ih =>
    intro s hinv hops
    obtain ⟨h1, h2⟩ := invCore_opsOk_runPendingOp hinv hops
    exact ih _ h1 h2

theorem runPendingOp_pending (s : App) (op : PendingOp) :
    (runPendingOp s op).pending = s.pending := by
  cases op with
  | addWindowOp fid => exact addWindowCore_pending s fid
  | addViewOp w v onc fid => exact addViewRealizedCore_pending s w v onc (some fid)
  | removeViewOp v => exact removeViewCore_pending s v

theorem runPendingOp_realized (s : App) (op : PendingOp) :
    (runPendingOp s op).realized = s.realized := by
  cases op with
  | addWindowOp fid => exact addWindowCore_realized s fid
  | addViewOp w v onc fid => exact addViewRealizedCore_realized s w v onc (some fid)
  | removeViewOp v => exact removeViewCore_realized s v

theorem runPending_pending : ∀ (ops : List PendingOp) (s : App),
    (runPending s ops).pending = s.pending := by
  intro ops
  induction ops with
  | nil =>
    intro s
    rfl
  | cons op rest ih =>
    intro s
    have h := ih (runPendingOp s op)
    rw [runPendingOp_pending] at h
    exact h

theorem runPending_realized : ∀ (ops : List PendingOp) (s : App),
    (runPending s ops).realized = s.realized := by
  intro ops
  induction ops with
  | nil =>
    intro s
    rfl
  | cons op rest ih =>
    intro s
    have h := ih (runPendingOp s op)
    rw [runPendingOp_realized] at h
    exact h

theorem drain_pending (s : App) : (drain s).pending = [] := by
  unfold drain
  rw [runPending_pending]

theorem drain_realized (s : App) : (drain s).realized = s.realized := by
  unfold drain
  rw [runPending_realized]

theorem inv_drain {s : App} (h : Inv s) : Inv (drain s) := by
  obtain ⟨hinv, hops⟩ := h
  refine ⟨?_, ?_⟩
  · exact invCore_runPending s.pending _
      (@invCore_congr s { s with pending := [] } rfl rfl rfl le_rfl hinv)
      (@opsOk_congr s { s with pending := [] } s.pending rfl rfl le_rfl hops)
  · rw [drain_pending]
    exact opsOk_nil _

/-! ## Invariant preservation by every public entry point -/

theorem inv_newFuture {s : App} (h : Inv s) : Inv (newFuture s).1 := by
  obtain ⟨hinv, hops⟩ := h
  exact ⟨@invCore_congr s (newFuture s).1 rfl rfl rfl (Nat.le_succ s.nextId) hinv,
    @opsOk_congr s (newFuture s).1 s.pending rfl rfl (Nat.le_succ s.nextId) hops⟩

theorem inv_setRealized {s : App} (h : Inv s) : Inv { s with realized := true } := by
  obtain ⟨hinv, hops⟩ := h
  exact ⟨@invCore_congr s { s with realized := true } rfl rfl rfl le_rfl hinv,
    @opsOk_congr s { s with realized := true } s.pending rfl rfl le_rfl hops⟩

theorem inv_clearDirty {s : App} (h : Inv s) : Inv { s with dirty := false } := by
  obtain ⟨hinv, hops⟩ := h
  exact ⟨@invCore_congr s { s with dirty := false } rfl rfl rfl le_rfl hinv,
    @opsOk_congr s { s with dirty := false } s.pending rfl rfl le_rfl hops⟩

theorem inv_setupViewer {s : App} (h : Inv s) : Inv (setupViewer s) := by
  obtain ⟨hinv, hops⟩ := h
  exact ⟨@invCore_congr s (setupViewer s) rfl rfl rfl le_rfl hinv,
    @opsOk_congr s (setupViewer s) s.pending rfl rfl le_rfl hops⟩

theorem inv_recreateViewer {s : App} (h : Inv s) : Inv (recreateViewer s) := by
  obtain ⟨hinv, hops⟩ := h
  exact ⟨@invCore_congr s (recreateViewer s) rfl rfl rfl le_rfl hinv,
    @opsOk_congr s (recreateViewer s) s.pending rfl rfl le_rfl hops⟩

theorem inv_addWindow {s : App} (ok : Bool) (h : Inv s) : Inv (addWindow s ok).1 := by
  have hinv := h.1
  have hops := h.2
  have h1 : InvCore (newFuture s).1 :=
    @invCore_congr s (newFuture s).1 rfl rfl rfl (Nat.le_succ s.nextId) hinv
  have ho1 : OpsOk (newFuture s).1 s.pending :=
    @opsOk_congr s (newFuture s).1 s.pending rfl rfl (Nat.le_succ s.nextId) hops
  cases ok with
  | false =>
    exact inv_newFuture h
  | true =>
    show Inv ((if (newFuture s).1.realized = true
        then ({ (newFuture s).1 with pending :=
          (newFuture s).1.pending ++ [PendingOp.addWindowOp (newFuture s).2] },
          (newFuture s).2)
        else (addWindowCore (newFuture s).1 (newFuture s).2, (newFuture s).2)).1)
    by_cases hre : (newFuture s).1.realized = true
    · rw [if_pos hre]
      refine ⟨?_, ?_⟩
      · exact @invCore_congr (newFuture s).1
          { (newFuture s).1 with pending :=
            (newFuture s).1.pending ++ [PendingOp.addWindowOp (newFuture s).2] }
          rfl rfl rfl le_rfl h1
      · exact @opsOk_congr s
          { (newFuture s).1 with pending :=
            (newFuture s).1.pending ++ [PendingOp.addWindowOp (newFuture s).2] }
          (s.pending ++ [PendingOp.addWindowOp (newFuture s).2])
          rfl rfl (Nat.le_succ s.nextId)
          (opsOk_append_nonView hops rfl)
    · rw [if_neg hre]
      obtain ⟨h2, ho2⟩ := invCore_opsOk_addWindowCore h1 ho1
      refine ⟨h2, ?_⟩
      show OpsOk (addWindowCore (newFuture s).1 (newFuture s).2)
        (addWindowCore (newFuture s).1 (newFuture s).2).pending
      rw [addWindowCore_pending]
      exact ho2

theorem inv_realize {s : App} (h : Inv s) : Inv (realize s) := by
  unfold realize
  by_cases hre : s.realized = true
  · rw [if_pos hre]
    exact h
  · rw [if_neg hre]
    show Inv { setupViewer
      (if s.viewerWindows.isEmpty = true then (addWindow s true).1 else s) with
      realized := true }
    have h1 : Inv (if s.viewerWindows.isEmpty = true then (addWindow s true).1 else s) := by
      by_cases hw : s.viewerWindows.isEmpty = true
      · rw [if_pos hw]
        exact inv_addWindow true h
      · rw [if_neg hw]
        exact h
    exact inv_setRealized (inv_setupViewer h1)

theorem inv_addView {s : App} {w : Option Nat} {v : Option ViewArg} {onc : Bool}
    (h : Inv s)
    (hfresh : ∀ u : ViewArg, v = some u →
      u.id < s.nextId ∧ u.id ∉ allDispViews s ∧ lookupA s.viewData u.id = none
        ∧ u.id ∉ pendingViews s.pending) :
    Inv (addView s w v onc).1 := by
  have hinv := h.1
  have hops := h.2
  cases w with
  | none =>
    cases v with
    | none => exact inv_newFuture h
    | some u => exact inv_newFuture h
  | some wi =>
    cases v with
    | none => exact inv_newFuture h
    | some u =>
      obtain ⟨h1, h2, h3, h4⟩ := hfresh u rfl
      show Inv ((if u.hasCamera = true then
          (if s.realized = true then
            ({ (newFuture s).1 with pending :=
              (newFuture s).1.pending ++ [PendingOp.addViewOp wi u onc (newFuture s).2] },
             (newFuture s).2, none)
          else addViewPre s wi u onc)
        else ((newFuture s).1, (newFuture s).2, none)).1)
      by_cases hcam : u.hasCamera = true
      · rw [if_pos hcam]
        by_cases hre : s.realized = true
        · rw [if_pos hre]
          refine ⟨?_, ?_⟩
          · exact @invCore_congr s
              { (newFuture s).1 with pending :=
                (newFuture s).1.pending ++ [PendingOp.addViewOp wi u onc (newFuture s).2] }
              rfl rfl rfl (Nat.le_succ s.nextId) hinv
          · exact @opsOk_congr s
              { (newFuture s).1 with pending :=
                (newFuture s).1.pending ++ [PendingOp.addViewOp wi u onc (newFuture s).2] }
              (s.pending ++ [PendingOp.addViewOp wi u onc (newFuture s).2])
              rfl rfl (Nat.le_succ s.nextId)
              (opsOk_append_addView hops h1 h2 h3 h4)
        · rw [if_neg hre]
          obtain ⟨hI, hO⟩ := invCore_opsOk_addViewPre hinv hops h1 h2 h3 h4
          refine ⟨hI, ?_⟩
          show OpsOk (addViewPre s wi u onc).1 (addViewPre s wi u onc).1.pending
          rw [addViewPre_pending]
          exact hO
      · rw [if_neg hcam]
        exact inv_newFuture h

theorem inv_removeView {s : App} (v : Option Nat) (h : Inv s) : Inv (removeView s v) := by
  have hinv := h.1
  have hops := h.2
  cases v with
  | none => exact h
  | some u =>
    show Inv (if s.realized = true
      then { s with pending := s.pending ++ [PendingOp.removeViewOp u] }
      else removeViewCore s u)
    by_cases hre : s.realized = true
    · rw [if_pos hre]
      refine ⟨?_, ?_⟩
      · exact @invCore_congr s
          { s with pending := s.pending ++ [PendingOp.removeViewOp u] }
          rfl rfl rfl le_rfl hinv
      · exact @opsOk_congr s
          { s with pending := s.pending ++ [PendingOp.removeViewOp u] }
          (s.pending ++ [PendingOp.removeViewOp u])
          rfl rfl le_rfl (opsOk_append_nonView hops rfl)
    · rw [if_neg hre]
      refine ⟨invCore_removeViewCore u hinv, ?_⟩
      show OpsOk (removeViewCore s u) (removeViewCore s u).pending
      rw [removeViewCore_pending]
      exact opsOk_removeViewCore u hops

theorem inv_frame {s : App} (a b : Bool) (h : Inv s) : Inv (frame s a b).app := by
  have h1 : Inv (if s.realized = true then s else realize s) := by
    by_cases hre : s.realized = true
    · rw [if_pos hre]
      exact h
    · rw [if_neg hre]
      exact inv_realize h
  cases a with
  | false =>
    exact h1
  | true =>
    have h2 : Inv (drain (if s.realized = true then s else realize s)) := inv_drain h1
    show Inv ((if (drain (if s.realized = true then s else realize s)).dirty = true
        then ({ app := recreateViewer ({ drain (if s.realized = true then s else realize s) with dirty := false }), cont := true, realizeRan := !s.realized, rebuilds := 1, recorded := false, presented := false } : FrameResult)
        else ({ app := drain (if s.realized = true then s else realize s), cont := b, realizeRan := !s.realized, rebuilds := 0, recorded := true, presented := true } : FrameResult)).app)
    by_cases hd : (drain (if s.realized = true then s else realize s)).dirty = true
    · rw [if_pos hd]
      exact inv_recreateViewer (inv_clearDirty h2)
    · rw [if_neg hd]
      exact h2

theorem inv_execCmd {s : App} (c : Cmd) (h : Inv s) : Inv (execCmd s c) := by
  cases c with
  | cAddWindow ok => exact inv_addWindow ok h
  | cRemoveView v => exact inv_removeView v h
  | cFrame a b => exact inv_frame a b h
  | cAddView w nullView hasCam onc =>
    show Inv (if nullView = true then (addView s w none onc).1
      else (addView { s with nextId := s.nextId + 1 } w (some ⟨s.nextId, hasCam⟩) onc).1)
    have hinv := h.1
    have hops := h.2
    obtain ⟨hcons, hndd, hndc, hnda, hndr, hndv, hdom, hbd, hbv, hbcw, hbrg, hbvd⟩ := hinv
    by_cases hn : nullView = true
    · rw [if_pos hn]
      refine inv_addView h ?_
      intro u hu
      exact Option.noConfusion hu
    · rw [if_neg hn]
      have h1 : Inv { s with nextId := s.nextId + 1 } :=
        ⟨@invCore_congr s { s with nextId := s.nextId + 1 } rfl rfl rfl
            (Nat.le_succ s.nextId)
            ⟨hcons, hndd, hndc, hnda, hndr, hndv, hdom, hbd, hbv, hbcw, hbrg, hbvd⟩,
          @opsOk_congr s { s with nextId := s.nextId + 1 } s.pending rfl rfl
            (Nat.le_succ s.nextId) hops⟩
      refine inv_addView h1 ?_
      intro u hu
      have hu2 : (⟨s.nextId, hasCam⟩ : ViewArg) = u := by
        injection hu
      subst hu2
      refine ⟨Nat.lt_succ_self s.nextId, ?_, ?_, ?_⟩
      · intro hmem
        have hl : s.nextId < s.nextId := hbv _ hmem
        omega
      · apply lookupA_eq_none_of
        intro p hp he
        have hl : p.1 < s.nextId := hbvd p hp
        have he2 : p.1 = s.nextId := he
        omega
      · intro hmem
        have hl : s.nextId < s.nextId := (hops.2 _ hmem).1
        omega

theorem inv_initApp : Inv initApp := by
  constructor
  · refine ⟨⟨?_, ?_⟩, ?_, ?_, ?_, ?_, ?_, ?_, ⟨?_, ?_, ?_, ?_, ?_⟩⟩ <;>
      simp [initApp, allDispViews, rgIdList]
  · exact opsOk_nil _

theorem inv_execTrace : ∀ (cs : List Cmd) (s : App), Inv s → Inv (execTrace s cs) := by
  intro cs
  induction cs with
  | nil =>
    intro s h
    exact h
  | cons c rest ih =>
    intro s h
    exact ih _ (inv_execCmd c h)

/-! ## Future resolution and frame-loop observables -/

theorem recreateViewer_realized (t : App) : (recreateViewer t).realized = t.realized := rfl

theorem recreateViewer_futures (t : App) : (recreateViewer t).futures = t.futures := rfl

theorem recreateViewer_handlers (t : App) :
    (recreateViewer t).handlers = t.handlers ++ [Handler.close] := rfl

theorem newFuture_unresolved {s : App} (hfb : ∀ p ∈ s.futures, p.1 < s.nextId) :
    lookupA (newFuture s).1.futures (newFuture s).2 = some none := by
  have h0 : lookupA s.futures s.nextId = none := by
    apply lookupA_eq_none_of
    intro p hp he
    have := hfb p hp
    omega
  show lookupA (s.futures ++ [(s.nextId, none)]) s.nextId = some none
  rw [lookupA_append_none _ h0]
  simp [lookupA]

theorem addView_nocam_eq {s : App} {w : Nat} {v : ViewArg} {onc : Bool}
    (hcam : v.hasCamera = false) :
    addView s (some w) (some v) onc = ((newFuture s).1, (newFuture s).2, none) := by
  simp [addView, hcam]

theorem addView_queued_eq {s : App} {w : Nat} {v : ViewArg} {onc : Bool}
    (hcam : v.hasCamera = true) (hreal : s.realized = true) :
    addView s (some w) (some v) onc
      = ({ s with
            nextId := s.nextId + 1
            futures := s.futures ++ [(s.nextId, none)]
            pending := s.pending ++ [PendingOp.addViewOp w v onc s.nextId] },
         s.nextId, none) := by
  simp [addView, hcam, hreal, newFuture]

theorem addViewPre_resolves (s : App) (w : Nat) (v : ViewArg) (onc : Bool) :
    lookupA (addViewPre s w v onc).1.futures (addViewPre s w v onc).2.1
      = some (some v.id) := by
  unfold addViewPre
  split
  · simp [resolveFuture, newFuture, lookupA_setA_self]
  · simp [resolveFuture, newFuture, lookupA_setA_self]

theorem addViewRealizedCore_resolves (t : App) (w : Nat) (v : ViewArg) (onc : Bool)
    (fid : Nat) :
    lookupA (addViewRealizedCore t w v onc (some fid)).1.futures fid
      = some (some v.id) := by
  unfold addViewRealizedCore
  cases hq : getCommandGraph (addRootIfEmpty t v.id) w <;>
    simp [hq, resolveFutureOpt, resolveFuture, addManipulator, attachView,
      lookupA_setA_self]

theorem drain_single_addView {s : App} {w : Nat} {v : ViewArg} {onc : Bool} {fid : Nat}
    (hp : s.pending = [PendingOp.addViewOp w v onc fid]) :
    lookupA (drain s).futures fid = some (some v.id) := by
  unfold drain
  rw [hp]
  show lookupA ((addViewRealizedCore { s with pending := [] } w v onc
    (some fid)).1).futures fid = some (some v.id)
  exact addViewRealizedCore_resolves _ _ _ _ _

theorem frame_realized_eq {s : App} (b : Bool) (hre : s.realized = true) :
    frame s true b
      = if (drain s).dirty = true
        then { app := recreateViewer { drain s with dirty := false }, cont := true, realizeRan := !s.realized, rebuilds := 1, recorded := false, presented := false }
        else { app := drain s, cont := b, realizeRan := !s.realized, rebuilds := 0, recorded := true, presented := true } := by
  show (if (drain (if s.realized = true then s else realize s)).dirty = true
      then ({ app := recreateViewer ({ drain (if s.realized = true then s else realize s) with dirty := false }), cont := true, realizeRan := !s.realized, rebuilds := 1, recorded := false, presented := false } : FrameResult)
      else ({ app := drain (if s.realized = true then s else realize s), cont := b, realizeRan := !s.realized, rebuilds := 0, recorded := true, presented := true } : FrameResult)) = _
  rw [if_pos hre]

theorem frame_no_dirty_rebuilds {t : App} (b : Bool) (hre : t.realized = true)
    (hpd : t.pending = []) (hdf : t.dirty = false) :
    (frame t true b).rebuilds = 0 := by
  have hdr : drain t = { t with pending := [] } := by
    unfold drain
    rw [hpd]
    rfl
  rw [frame_realized_eq b hre, hdr]
  have hd2 : ({ t with pending := ([] : List PendingOp) } : App).dirty = false := hdf
  rw [hd2]
  simp

theorem getWindow_none_of_not_attached {s : App} {x : Nat} (hx : x ∉ allDispViews s) :
    getWindow s x = none := by
  unfold getWindow
  rw [List.find?_eq_none.mpr ?_]
  · rfl
  · intro wv hwv hc
    refine hx ?_
    refine List.mem_flatten.mpr ⟨wv.2, List.mem_map.mpr ⟨wv, hwv, rfl⟩, ?_⟩
    simpa using hc

theorem removeViewCore_not_attached {s : App} {x : Nat} (hx : x ∉ allDispViews s) :
    removeViewCore s x = s := by
  unfold removeViewCore
  rw [getWindow_none_of_not_attached hx]

theorem removeView_handlers (s : App) (v : Option Nat) :
    (removeView s v).handlers = s.handlers := by
  cases v with
  | none => rfl
  | some u =>
    show (if s.realized = true
      then { s with pending := s.pending ++ [PendingOp.removeViewOp u] }
      else removeViewCore s u).handlers = s.handlers
    by_cases hre : s.realized = true
    · rw [if_pos hre]
    · rw [if_neg hre]
      exact removeViewCore_handlers s u

theorem removeView_realized (s : App) (v : Option Nat) :
    (removeView s v).realized = s.realized := by
  cases v with
  | none => rfl
  | some u =>
    show (if s.realized = true
      then { s with pending := s.pending ++ [PendingOp.removeViewOp u] }
      else removeViewCore s u).realized = s.realized
    by_cases hre : s.realized = true
    · rw [if_pos hre]
    · rw [if_neg hre]
      exact removeViewCore_realized s u

theorem addView_realized (s : App) (w : Option Nat) (v : Option ViewArg) (onc : Bool) :
    (addView s w v onc).1.realized = s.realized := by
  cases w with
  | none =>
    cases v with
    | none => rfl
    | some u => rfl
  | some wi =>
    cases v with
    | none => rfl
    | some u =>
      by_cases hcam : u.hasCamera = true
      · by_cases hre : s.realized = true
        · rw [addView_queued_eq hcam hre]
        · rw [addView_pre_eq hcam (by simpa using hre)]
          exact addViewPre_realized s wi u onc
      · rw [addView_nocam_eq (by simpa using hcam)]
        rfl

theorem addWindow_realized (s : App) (ok : Bool) :
    (addWindow s ok).1.realized = s.realized := by
  cases ok with
  | false => rfl
  | true =>
    show ((if (newFuture s).1.realized = true
        then ({ (newFuture s).1 with pending :=
          (newFuture s).1.pending ++ [PendingOp.addWindowOp (newFuture s).2] },
          (newFuture s).2)
        else (addWindowCore (newFuture s).1 (newFuture s).2, (newFuture s).2)).1).realized
      = s.realized
    by_cases hre : (newFuture s).1.realized = true
    · rw [if_pos hre]
      rfl
    · rw [if_neg hre]
      show (addWindowCore (newFuture s).1 (newFuture s).2).realized = s.realized
      rw [addWindowCore_realized]
      rfl

theorem realize_realized (s : App) : (realize s).realized = true := by
  unfold realize
  by_cases hre : s.realized = true
  · rw [if_pos hre]
    exact hre
  · rw [if_neg hre]

theorem frame_app_realized (s : App) (a b : Bool) : (frame s a b).app.realized = true := by
  have h1 : (if s.realized = true then s else realize s).realized = true := by
    by_cases hre : s.realized = true
    · rw [if_pos hre]
      exact hre
    · rw [if_neg hre]
      exact realize_realized s
  cases a with
  | false => exact h1
  | true =>
    show ((if (drain (if s.realized = true then s else realize s)).dirty = true
        then ({ app := recreateViewer ({ drain (if s.realized = true then s else realize s) with dirty := false }), cont := true, realizeRan := !s.realized, rebuilds := 1, recorded := false, presented := false } : FrameResult)
        else ({ app := drain (if s.realized = true then s else realize s), cont := b, realizeRan := !s.realized, rebuilds := 0, recorded := true, presented := true } : FrameResult)).app).realized = true
    by_cases hd : (drain (if s.realized = true then s else realize s)).dirty = true
    · rw [if_pos hd]
      show (drain (if s.realized = true then s else realize s)).realized = true
      rw [drain_realized]
      exact h1
    · rw [if_neg hd]
      show (drain (if s.realized = true then s else realize s)).realized = true
      rw [drain_realized]
      exact h1

/-! ## Manipulator accounting -/

/-- Whether a handler entry is a live MapManipulator (a null entry pushed for
a manipulator-less view is not one). -/
def isMapManip (h : Handler) : Bool :=
  match h with
  | .manip (some _) => true
  | _ => false

/-- Number of MapManipulator entries in a handler list. -/
def manipCount (hs : List Handler) : Nat := (hs.filter isMapManip).length

theorem manipCount_append (a b : List Handler) :
    manipCount (a ++ b) = manipCount a + manipCount b := by
  simp [manipCount, List.filter_append]

theorem addManipulator_handlers (s : App) (w u : Nat) :
    (addManipulator s w u).handlers
      = (s.handlers.filter fun h => match h with
          | Handler.manip (some _) => false
          | _ => true)
        ++ (s.dispWindows.map fun wv => wv.2.reverse.map fun x =>
              Handler.manip (lookupA (setA s.viewManip u s.nextId) x)).flatten := rfl

theorem manipCount_kept (hs : List Handler) :
    manipCount (hs.filter fun h => match h with
      | Handler.manip (some _) => false
      | _ => true) = 0 := by
  induction hs with
  | nil => rfl
  | cons a tl ih =>
    cases a with
    | close => simpa [List.filter_cons, manipCount, isMapManip] using ih
    | other k => simpa [List.filter_cons, manipCount, isMapManip] using ih
    | manip o =>
      cases o with
      | none => simpa [List.filter_cons, manipCount, isMapManip] using ih
      | some m => simpa [List.filter_cons, manipCount, isMapManip] using ih

theorem manipCount_window (vm : List (Nat × Nat)) :
    ∀ vs : List Nat,
      manipCount (vs.map fun x => Handler.manip (lookupA vm x))
        = (vs.filter fun x => (lookupA vm x).isSome).length := by
  intro vs
  induction vs with
  | nil => rfl
  | cons a tl ih =>
    cases hq : lookupA vm a with
    | none => simpa [manipCount, List.filter_cons, hq, isMapManip] using ih
    | some m => simpa [manipCount, List.filter_cons, hq, isMapManip] using ih

theorem manipCount_rebuilt (vm : List (Nat × Nat)) :
    ∀ dw : List (Nat × List Nat),
      manipCount ((dw.map fun wv => wv.2.reverse.map fun x =>
            Handler.manip (lookupA vm x)).flatten)
        = (((dw.map fun p => p.2).flatten).filter fun x => (lookupA vm x).isSome).length := by
  intro dw
  induction dw with
  | nil => rfl
  | cons hd tl ih =>
    simp only [List.map_cons, List.flatten_cons, List.filter_append, List.length_append]
    rw [manipCount_append, manipCount_window, List.filter_reverse, List.length_reverse, ih]

theorem frame_realizeRan (s : App) (a b : Bool) :
    (frame s a b).realizeRan = (!s.realized) := by
  cases a with
  | false => rfl
  | true =>
    show ((if (drain (if s.realized = true then s else realize s)).dirty = true
        then ({ app := recreateViewer ({ drain (if s.realized = true then s else realize s) with dirty := false }), cont := true, realizeRan := !s.realized, rebuilds := 1, recorded := false, presented := false } : FrameResult)
        else ({ app := drain (if s.realized = true then s else realize s), cont := b, realizeRan := !s.realized, rebuilds := 0, recorded := true, presented := true } : FrameResult)).realizeRan) = (!s.realized)
    by_cases hd : (drain (if s.realized = true then s else realize s)).dirty = true
    · rw [if_pos hd]
    · rw [if_neg hd]

/-! ## Concrete states used to instantiate the claims -/

/-- A realized application with empty registries and an empty deferred
queue, used to instantiate the post-realization claims concretely. -/
def appRealized : App := { initApp with realized := true }

/-- A realized application whose dirty flag is set. -/
def appDirty : App := { initApp with realized := true, dirty := true }

/-! ## The claims -/

/-- C1 (corrected): for every sequence of public calls in which each view
passed to `addView` is a freshly created view object (the `Cmd` trace
semantics, which draws caller views from the allocation counter), after each
call the display configuration and the command-graph registry are mutually
consistent: every listed view has its parent render graph recorded in
`_viewData` as a child of its window's command graph, and every view-bearing
render-graph child corresponds to exactly one display-configuration entry.
The freshness restriction is forced: re-adding a live view breaks the
invariant (see the counterexample). -/
theorem c1_registry_consistency (cs : List Cmd) :
    Consistent (execTrace initApp cs) :=
  (inv_execTrace cs initApp inv_initApp).1.1

/-- C1 counterexample: passing the already-attached view 3 to `addView` a
second time leaves the registries mutually inconsistent (the view is listed
twice and its first render graph no longer matches `_viewData`). -/
theorem c1_counterexample :
    ¬ Consistent (addView (addWindow initApp true).1 (some 1) (some ⟨3, true⟩) false).1 := by
  unfold Consistent
  decide

/-- C2: with a non-null window, view and camera, an `addView` call before
realization resolves the returned future with the view within the same call,
whereas after realization (here with an otherwise empty deferred queue and
in-bounds future ids) the call returns a pending unresolved future that a
subsequent `frame()` call resolves with the view when it drains the deferred
queue. -/
theorem c2_future_resolution {s : App} {w : Nat} {v : ViewArg} {onc a : Bool}
    (hcam : v.hasCamera = true)
    (hfb : ∀ p ∈ s.futures, p.1 < s.nextId) :
    (s.realized = false →
      lookupA (addView s (some w) (some v) onc).1.futures
        (addView s (some w) (some v) onc).2.1 = some (some v.id))
    ∧ (s.realized = true → s.pending = [] →
      lookupA (addView s (some w) (some v) onc).1.futures
        (addView s (some w) (some v) onc).2.1 = some none
      ∧ lookupA (frame (addView s (some w) (some v) onc).1 true a).app.futures
          (addView s (some w) (some v) onc).2.1 = some (some v.id)) := by
  constructor
  · intro hpre
    rw [addView_pre_eq hcam hpre]
    exact addViewPre_resolves s w v onc
  · intro hre hp
    rw [addView_queued_eq hcam hre]
    constructor
    · show lookupA (s.futures ++ [(s.nextId, none)]) s.nextId = some none
      exact newFuture_unresolved hfb
    · have hreT : ({ s with
          nextId := s.nextId + 1
          futures := s.futures ++ [(s.nextId, none)]
          pending := s.pending ++ [PendingOp.addViewOp w v onc s.nextId] } : App).realized
            = true := hre
      have hpT : ({ s with
          nextId := s.nextId + 1
          futures := s.futures ++ [(s.nextId, none)]
          pending := s.pending ++ [PendingOp.addViewOp w v onc s.nextId] } : App).pending
            = [PendingOp.addViewOp w v onc s.nextId] := by
        show s.pending ++ [PendingOp.addViewOp w v onc s.nextId] = _
        rw [hp]
        rfl
      rw [frame_realized_eq a hreT]
      by_cases hd : (drain { s with
          nextId := s.nextId + 1
          futures := s.futures ++ [(s.nextId, none)]
          pending := s.pending ++ [PendingOp.addViewOp w v onc s.nextId] }).dirty = true
      · rw [if_pos hd]
        show lookupA (drain { s with
            nextId := s.nextId + 1
            futures := s.futures ++ [(s.nextId, none)]
            pending := s.pending ++ [PendingOp.addViewOp w v onc s.nextId] }).futures
          s.nextId = some (some v.id)
        exact drain_single_addView hpT
      · rw [if_neg hd]
        show lookupA (drain { s with
            nextId := s.nextId + 1
            futures := s.futures ++ [(s.nextId, none)]
            pending := s.pending ++ [PendingOp.addViewOp w v onc s.nextId] }).futures
          s.nextId = some (some v.id)
        exact drain_single_addView hpT

/-- C2 witness: the theorem applied to the empty realized application, window
0 and a fresh view 7. -/
theorem c2_witness :
    (appRealized.realized = false →
      lookupA (addView appRealized (some 0) (some ⟨7, true⟩) false).1.futures
        (addView appRealized (some 0) (some ⟨7, true⟩) false).2.1 = some (some 7))
    ∧ (appRealized.realized = true → appRealized.pending = [] →
      lookupA (addView appRealized (some 0) (some ⟨7, true⟩) false).1.futures
        (addView appRealized (some 0) (some ⟨7, true⟩) false).2.1 = some none
      ∧ lookupA (frame (addView appRealized (some 0) (some ⟨7, true⟩) false).1 true false).app.futures
          (addView appRealized (some 0) (some ⟨7, true⟩) false).2.1 = some (some 7)) :=
  c2_future_resolution rfl (by simp [appRealized, initApp])

/-- C3 (corrected): a manipulator-installing rebuild (`addManipulator`)
produces exactly one MapManipulator entry per attached view with a recorded
manipulator (no duplicates), but `removeView` never touches the handler
list, so a removed view leaks its manipulator entry until the next rebuild. -/
theorem c3_manipulator_accounting (s : App) (w u : Nat) (v : Option Nat) :
    manipCount (addManipulator s w u).handlers
      = ((allDispViews s).filter
          (fun x => (lookupA (setA s.viewManip u s.nextId) x).isSome)).length
    ∧ (removeView s v).handlers = s.handlers := by
  constructor
  · rw [addManipulator_handlers, manipCount_append, manipCount_kept,
      manipCount_rebuilt, Nat.zero_add]
    rfl
  · exact removeView_handlers s v

/-- C3 counterexample: one add/remove cycle (the default view of a first
window, then its removal) leaves one MapManipulator entry while no view is
attached, so the entry count does not equal the attached-view count. -/
theorem c3_counterexample :
    manipCount (removeView (addWindow initApp true).1 (some 3)).handlers = 1
    ∧ allDispViews (removeView (addWindow initApp true).1 (some 3)) = [] := by
  decide

/-- C4 (corrected): the `add_window` lambda enables the terrain setting
`supportMultiThreadedRecord` unconditionally, on every window creation. -/
theorem c4_mtr_unconditional (s : App) (fid : Nat) :
    (addWindowCore s fid).multiThreadedRecord = true := by
  unfold addWindowCore markDirtyIfRealized
  split <;> rfl

/-- C4 counterexample: creating the first and only window already enables
multi-threaded record protection, contradicting the claimed equivalence with
"more than one window exists". -/
theorem c4_counterexample :
    (addWindow initApp true).1.viewerWindows.length = 1
    ∧ (addWindow initApp true).1.multiThreadedRecord = true := by
  decide

/-- C5: a set dirty flag is consumed by the next `frame()` call: exactly one
viewer rebuild, the flag is cleared, the previously installed handlers are
all reinstalled (followed by the close handler the one-time setup appends),
nothing is recorded or presented during that frame, and the following frame
performs no rebuild. -/
theorem c5_dirty_rebuild {s : App} (b b2 : Bool)
    (hre : s.realized = true) (hd : s.dirty = true) (hp : s.pending = []) :
    (frame s true b).rebuilds = 1
    ∧ (frame s true b).app.dirty = false
    ∧ (frame s true b).app.handlers = s.handlers ++ [Handler.close]
    ∧ (frame s true b).recorded = false
    ∧ (frame s true b).presented = false
    ∧ (frame (frame s true b).app true b2).rebuilds = 0 := by
  have hdr : drain s = { s with pending := [] } := by
    unfold drain
    rw [hp]
    rfl
  have hfr := frame_realized_eq b hre
  rw [hdr] at hfr
  have hd2 : ({ s with pending := ([] : List PendingOp) } : App).dirty = true := hd
  rw [if_pos hd2] at hfr
  rw [hfr]
  refine ⟨rfl, rfl, ?_, rfl, rfl, ?_⟩
  · rw [recreateViewer_handlers]
  · exact frame_no_dirty_rebuilds b2 hre rfl rfl

/-- C5 witness: the theorem applied to the realized dirty application. -/
theorem c5_witness :
    (frame appDirty true true).rebuilds = 1
    ∧ (frame appDirty true true).app.dirty = false
    ∧ (frame appDirty true true).app.handlers = appDirty.handlers ++ [Handler.close]
    ∧ (frame appDirty true true).recorded = false
    ∧ (frame appDirty true true).presented = false
    ∧ (frame (frame appDirty true true).app true true).rebuilds = 0 :=
  c5_dirty_rebuild true true rfl rfl rfl

/-- C6: every precondition-violating public call is a soft-asserted no-op:
`addView` with a null view (any window), with a null window (any view,
camera-bearing included), or with a camera-less view returns an unresolved
future and leaves the display configuration, the command-graph registry and
the view table unchanged; `removeView` with a null view returns the state
unchanged; and the removal body run on a view that was never attached is the
identity. -/
theorem c6_soft_asserts {s : App} {w : Option Nat} {u u2 : ViewArg} {onc : Bool} {x : Nat}
    (hfb : ∀ p ∈ s.futures, p.1 < s.nextId)
    (hcam : u.hasCamera = false)
    (hx : x ∉ allDispViews s) :
    ((addView s w none onc).1.dispWindows = s.dispWindows
      ∧ (addView s w none onc).1.commandGraphByWindow = s.commandGraphByWindow
      ∧ (addView s w none onc).1.viewData = s.viewData
      ∧ lookupA (addView s w none onc).1.futures (addView s w none onc).2.1 = some none)
    ∧ ((addView s none (some u2) onc).1.dispWindows = s.dispWindows
      ∧ (addView s none (some u2) onc).1.commandGraphByWindow = s.commandGraphByWindow
      ∧ (addView s none (some u2) onc).1.viewData = s.viewData
      ∧ lookupA (addView s none (some u2) onc).1.futures
          (addView s none (some u2) onc).2.1 = some none)
    ∧ ((addView s w (some u) onc).1.dispWindows = s.dispWindows
      ∧ (addView s w (some u) onc).1.commandGraphByWindow = s.commandGraphByWindow
      ∧ (addView s w (some u) onc).1.viewData = s.viewData
      ∧ lookupA (addView s w (some u) onc).1.futures (addView s w (some u) onc).2.1
          = some none)
    ∧ removeView s none = s
    ∧ removeViewCore s x = s := by
  refine ⟨?_, ⟨rfl, rfl, rfl, newFuture_unresolved hfb⟩, ?_,
    rfl, removeViewCore_not_attached hx⟩
  · cases w with
    | none => exact ⟨rfl, rfl, rfl, newFuture_unresolved hfb⟩
    | some wi => exact ⟨rfl, rfl, rfl, newFuture_unresolved hfb⟩
  · cases w with
    | none => exact ⟨rfl, rfl, rfl, newFuture_unresolved hfb⟩
    | some wi =>
      rw [addView_nocam_eq hcam]
      exact ⟨rfl, rfl, rfl, newFuture_unresolved hfb⟩

/-- C6 witness: the theorem applied to the constructor state with window 0,
a camera-less view 3, a camera-bearing view 4 passed with a null window, and
the never-attached view 9. -/
theorem c6_witness :
    ((addView initApp (some 0) none true).1.dispWindows = initApp.dispWindows
      ∧ (addView initApp (some 0) none true).1.commandGraphByWindow
          = initApp.commandGraphByWindow
      ∧ (addView initApp (some 0) none true).1.viewData = initApp.viewData
      ∧ lookupA (addView initApp (some 0) none true).1.futures
          (addView initApp (some 0) none true).2.1 = some none)
    ∧ ((addView initApp none (some ⟨4, true⟩) true).1.dispWindows = initApp.dispWindows
      ∧ (addView initApp none (some ⟨4, true⟩) true).1.commandGraphByWindow
          = initApp.commandGraphByWindow
      ∧ (addView initApp none (some ⟨4, true⟩) true).1.viewData = initApp.viewData
      ∧ lookupA (addView initApp none (some ⟨4, true⟩) true).1.futures
          (addView initApp none (some ⟨4, true⟩) true).2.1 = some none)
    ∧ ((addView initApp (some 0) (some ⟨3, false⟩) true).1.dispWindows
          = initApp.dispWindows
      ∧ (addView initApp (some 0) (some ⟨3, false⟩) true).1.commandGraphByWindow
          = initApp.commandGraphByWindow
      ∧ (addView initApp (some 0) (some ⟨3, false⟩) true).1.viewData = initApp.viewData
      ∧ lookupA (addView initApp (some 0) (some ⟨3, false⟩) true).1.futures
          (addView initApp (some 0) (some ⟨3, false⟩) true).2.1 = some none)
    ∧ removeView initApp none = initApp
    ∧ removeViewCore initApp 9 = initApp :=
  c6_soft_asserts (by simp [initApp]) rfl (by simp [initApp, allDispViews])

/-- C7: for monotone timestamp captures, the stored per-phase frame
statistics sum to the stored total frame time up to one microsecond of
truncation error per phase (three in total); all values are non-negative
counts of microseconds by construction. -/
theorem c7_frame_stats (t0 t1 t2 t3 t4 : Nat)
    (h01 : t0 ≤ t1) (h12 : t1 ≤ t2) (h23 : t2 ≤ t3) (h34 : t3 ≤ t4) :
    (frameStats t0 t1 t2 t3 t4).events + (frameStats t0 t1 t2 t3 t4).update
        + (frameStats t0 t1 t2 t3 t4).record + (frameStats t0 t1 t2 t3 t4).present
      ≤ (frameStats t0 t1 t2 t3 t4).frame
    ∧ (frameStats t0 t1 t2 t3 t4).frame
      ≤ (frameStats t0 t1 t2 t3 t4).events + (frameStats t0 t1 t2 t3 t4).update
        + (frameStats t0 t1 t2 t3 t4).record + (frameStats t0 t1 t2 t3 t4).present + 3 := by
  constructor
  · show usec t0 t1 + usec t1 t2 + usec t2 t3 + usec t3 t4 ≤ usec t0 t4
    unfold usec
    omega
  · show usec t0 t4 ≤ usec t0 t1 + usec t1 t2 + usec t2 t3 + usec t3 t4 + 3
    unfold usec
    omega

/-- C7 witness: the theorem applied to the captures 0, 1500, 3000, 4500,
6000 nanoseconds. -/
theorem c7_witness :
    (frameStats 0 1500 3000 4500 6000).events + (frameStats 0 1500 3000 4500 6000).update
        + (frameStats 0 1500 3000 4500 6000).record
        + (frameStats 0 1500 3000 4500 6000).present
      ≤ (frameStats 0 1500 3000 4500 6000).frame
    ∧ (frameStats 0 1500 3000 4500 6000).frame
      ≤ (frameStats 0 1500 3000 4500 6000).events + (frameStats 0 1500 3000 4500 6000).update
        + (frameStats 0 1500 3000 4500 6000).record
        + (frameStats 0 1500 3000 4500 6000).present + 3 :=
  c7_frame_stats 0 1500 3000 4500 6000 (by decide) (by decide) (by decide) (by decide)

/-- C8: the realization flag never transitions back: every public call made
on a realized application observes it still realized, every `frame()` call
leaves the application realized (running `realize()` the first time), and a
`frame()` call runs the realize step exactly when the flag was not yet
set. -/
theorem c8_realization_irreversible (s : App) (c : Cmd) (a b : Bool) :
    (s.realized = true → (execCmd s c).realized = true)
    ∧ (frame s a b).app.realized = true
    ∧ (frame s a b).realizeRan = (!s.realized) := by
  refine ⟨?_, frame_app_realized s a b, frame_realizeRan s a b⟩
  intro hre
  cases c with
  | cAddWindow ok => exact (addWindow_realized s ok).trans hre
  | cAddView w nv cam onc =>
    show (if nv = true then (addView s w none onc).1
      else (addView { s with nextId := s.nextId + 1 } w (some ⟨s.nextId, cam⟩) onc).1).realized
      = true
    by_cases hn : nv = true
    · rw [if_pos hn]
      exact (addView_realized s w none onc).trans hre
    · rw [if_neg hn]
      exact (addView_realized { s with nextId := s.nextId + 1 } w
        (some ⟨s.nextId, cam⟩) onc).trans hre
  | cRemoveView v => exact (removeView_realized s v).trans hre
  | cFrame a2 b2 => exact frame_app_realized s a2 b2

/-- C9: before realization, `addView` on a window without a registered
command graph still resolves the returned future with the view within the
call and still invokes the creation callback, handing it a null
command-graph pointer, while the display configuration, the command-graph
registry and the view table stay unchanged. -/
theorem c9_addView_unregistered_window {s : App} {w : Nat} {v : ViewArg}
    (hpre : s.realized = false) (hcam : v.hasCamera = true)
    (hcg : lookupA s.commandGraphByWindow w = none) :
    (addView s (some w) (some v) true).2.2 = some none
    ∧ lookupA (addView s (some w) (some v) true).1.futures
        (addView s (some w) (some v) true).2.1 = some (some v.id)
    ∧ (addView s (some w) (some v) true).1.dispWindows = s.dispWindows
    ∧ (addView s (some w) (some v) true).1.commandGraphByWindow
        = s.commandGraphByWindow
    ∧ (addView s (some w) (some v) true).1.viewData = s.viewData := by
  rw [addView_pre_eq hcam hpre]
  unfold addViewPre
  rw [hcg]
  exact ⟨rfl, lookupA_setA_self _ _ _, rfl, rfl, rfl⟩

/-- C9 witness: the theorem applied to the constructor state, the
never-created window 5 and the view 7. -/
theorem c9_witness :
    (addView initApp (some 5) (some ⟨7, true⟩) true).2.2 = some none
    ∧ lookupA (addView initApp (some 5) (some ⟨7, true⟩) true).1.futures
        (addView initApp (some 5) (some ⟨7, true⟩) true).2.1 = some (some 7)
    ∧ (addView initApp (some 5) (some ⟨7, true⟩) true).1.dispWindows
        = initApp.dispWindows
    ∧ (addView initApp (some 5) (some ⟨7, true⟩) true).1.commandGraphByWindow
        = initApp.commandGraphByWindow
    ∧ (addView initApp (some 5) (some ⟨7, true⟩) true).1.viewData = initApp.viewData :=
  c9_addView_unregistered_window rfl rfl rfl

/-- C10: every terminating execution of the frame loop returns exit code 0,
whatever made the loop stop. -/
theorem c10_run_returns_zero (fuel : Nat) (oracle : Nat → Bool × Bool) :
    ∀ (k : Nat) (s : App) (p : Int × App),
      runAux fuel oracle k s = some p → p.1 = 0 := by
  induction fuel with
  | zero =>
    intro k s p h
    exact absurd h (by simp [runAux])
  | succ n ih =>
    intro k s p h
    simp only [runAux] at h
    split at h
    · exact ih _ _ _ h
    · cases h
      rfl

/-- C10 witness: the theorem applied to a one-frame run whose advance oracle
stops immediately. -/
theorem c10_witness :
    ((runAux 1 (fun _ => (false, false)) 0 initApp).getD (1, initApp)).1 = 0 :=
  c10_run_returns_zero 1 (fun _ => (false, false)) 0 initApp
    ((runAux 1 (fun _ => (false, false)) 0 initApp).getD (1, initApp)) (by rfl)

end Rocky
